import Mathlib

/-!
# AOF to RDB rewrite (internal/aof/rdb.go)

A shallow embedding of the rewrite coordinator of `internal/aof/rdb.go`:
`Rewrite2RDB`, `Rewrite2RDBForReplication`, `startRewrite2RDB` and `rewrite2RDB`.

The Go code is imperative and talks to the operating system, to the RDB encoder and to
the private database it replays the log into.  The embedding threads an explicit `State`
(file system, open handles, pause lock, listener registry, event trace) through every
step, and reads the outcome of every external call from an `Env` record, so that a
"run" of the code is the evaluation of the functions below under one `Env`.
-/

namespace Aof

/-! ## Definitions -/

/-- Go `error` values, identified by their message. -/
abbrev Error := String

/-- Go `[]byte`. -/
abbrev Bytes := List Nat

/-- How a Go call ends: it returns a value, it returns an error, or the goroutine
aborts with a runtime fault (a nil dereference, or the abort of a callee). -/
inductive Outcome (α : Type) where
  | ok (a : α)
  | err (e : Error)
  | fault
  deriving Repr, DecidableEq

/-- Go conversion of a signed value to `int64` (two's complement wrap-around). -/
def wrapInt64 (x : Int) : Int := (x + 2 ^ 63) % 2 ^ 64 - 2 ^ 63

/-- Go conversion `uint64(x)` of a signed 64-bit value (also `uint(x)`, 64-bit platform). -/
def uint64 (x : Int) : Nat := (x % 2 ^ 64).toNat

/-- Go conversion `int(x)` of an `int64` value.  On the 64-bit platforms the rewrite
targets (it writes `redis-bits = 64`) `int` is 64 bits wide and the conversion keeps the
value. -/
def int (x : Int) : Int := x

/-- `time.Time`, as the number of nanoseconds elapsed since the Unix epoch. -/
structure Time where
  nanos : Int
  deriving Repr, DecidableEq

/-- `Time.UnixNano`: the nanosecond count as an `int64`. -/
def Time.UnixNano (t : Time) : Int := wrapInt64 t.nanos

/-- `strconv.FormatInt(x, 10)`. -/
def FormatInt10 (x : Int) : String := toString x

/-- Encoder options; `rdb.WithTTL` is the only one the rewrite uses. -/
inductive Opt where
  | TTL (ms : Nat)
  deriving Repr, DecidableEq

/-- `rdb.WithTTL`. -/
def WithTTL (ms : Nat) : Opt := Opt.TTL ms

/-- An `interface{}` element of a list or a hash: either a `[]byte` or something else. -/
inductive Val where
  | bytes (b : Bytes)
  | other
  deriving Repr, DecidableEq

/-- The type assertion `bytes, _ := v.([]byte)`: the zero value (nil slice) when it fails. -/
def Val.assertBytes : Val → Bytes
  | Val.bytes b => b
  | Val.other => []

/-- `sortedset.Element`. -/
structure Element (σ : Type) where
  Member : String
  Score : σ
  deriving Repr, DecidableEq

/-- `model.ZSetEntry`. -/
structure ZSetEntry (σ : Type) where
  Member : String
  Score : σ
  deriving Repr, DecidableEq

/-- Iteration with a consumer that may stop it: the consumer updates the variables it
captured (`β`) and returns whether to go on.  This is the shape of every `ForEach` the
rewrite calls. -/
def forEachWhile {α β : Type} (consumer : β → α → β × Bool) : β → List α → β
  | acc, [] => acc
  | acc, x :: xs =>
    match consumer acc x with
    | (acc1, true) => forEachWhile consumer acc1 xs
    | (acc1, false) => acc1

/-- The order of a sorted set: ascending score, ties broken by ascending member. -/
def Element.le {σ : Type} [LinearOrder σ] (a b : Element σ) : Prop :=
  a.Score < b.Score ∨ (a.Score = b.Score ∧ a.Member ≤ b.Member)

instance {σ : Type} [LinearOrder σ] : DecidableRel (Element.le : Element σ → Element σ → Prop) :=
  fun a b => by unfold Element.le; exact inferInstance

/-- Modelled from the spec: package `sortedset` (type `SortedSet`, its `Len` and
`ForEach`) is not part of the source under study; only the call
`obj.ForEach(int64(0), obj.Len(), true, consumer)` is.  The spec describes the container as
a set of (member, score) pairs whose order is "defined by score then tie-break on member
(ascending)", members being unique.  The model keeps the elements in any order and ranks
them on iteration. -/
structure SortedSet (σ : Type) where
  elements : List (Element σ)
  deriving Repr, DecidableEq

/-- Modelled from the spec: `SortedSet.Len`, the number of elements. -/
def SortedSet.Len {σ : Type} (s : SortedSet σ) : Int := s.elements.length

/-- Modelled from the spec: the elements by rank, lowest first: ascending score, ties
broken by ascending member. -/
def SortedSet.ranked {σ : Type} [LinearOrder σ] (s : SortedSet σ) : List (Element σ) :=
  s.elements.insertionSort Element.le

/-- Modelled from the spec: `SortedSet.ForEach(start, stop, desc, consumer)`.  The spec
gives only the rank order of the container; the signature, the range check and the
direction are those of the sorted set of godis, which package `sortedset` of this
repository carries: the call aborts (`illegal start`, `illegal end`) unless
`0 ≤ start < size` and `start ≤ stop ≤ size`, and otherwise visits `stop - start` elements
until the consumer returns false, from the lowest rank up, or from the highest rank down
when `desc` is true.  The result is `none` when the call aborts. -/
def SortedSet.ForEach {σ β : Type} [LinearOrder σ] (s : SortedSet σ) (start stop : Int)
    (desc : Bool) (consumer : β → Element σ → β × Bool) (init : β) : Option β :=
  let size := s.Len
  if start < 0 ∨ start ≥ size then none
  else if stop < start ∨ stop > size then none
  else
    let order := if desc then s.ranked.reverse else s.ranked
    some (forEachWhile consumer init ((order.drop start.toNat).take (stop - start).toNat))

/-- The runtime kind of `entity.Data` (an `interface{}`): the five kinds the type switch of
`rewrite2RDB` names, each container given by what its own `ForEach` yields, and `other`
for any value of another dynamic type (nil included). -/
inductive Data (σ : Type) where
  | bytes (b : Bytes)
  | list (items : List Val)
  | set (members : List String)
  | dict (fields : List (String × Val))
  | zset (s : SortedSet σ)
  | other (tag : Nat)
  deriving Repr, DecidableEq

/-- `database.DataEntity`. -/
structure DataEntity (σ : Type) where
  Data : Data σ
  deriving Repr, DecidableEq

/-- Go `map[string][]byte`, as an association list with unique keys. -/
abbrev HashMap := List (String × Bytes)

/-- Map assignment `hash[key] = bytes`. -/
def HashMap.set (m : HashMap) (key : String) (b : Bytes) : HashMap :=
  if m.any (fun p => p.1 == key) then m.map (fun p => if p.1 == key then (key, b) else p)
  else m ++ [(key, b)]

/-- One call on the RDB encoder, with its arguments. -/
inductive EncCall (σ : Type) where
  | WriteHeader
  | WriteAux (key value : String)
  | WriteDBHeader (dbIndex keyCount ttlCount : Nat)
  | WriteStringObject (key : String) (value : Bytes) (opts : List Opt)
  | WriteListObject (key : String) (values : List Bytes) (opts : List Opt)
  | WriteSetObject (key : String) (values : List Bytes) (opts : List Opt)
  | WriteHashMapObject (key : String) (hash : HashMap) (opts : List Opt)
  | WriteZSetObject (key : String) (entries : List (ZSetEntry σ)) (opts : List Opt)
  | WriteEnd
  deriving Repr, DecidableEq

/-- What the type switch of the dump callback comes to for one entity: an encoder call
to make, no matching case, or a runtime fault while the value is flattened. -/
inductive Adapted (σ : Type) where
  | write (call : EncCall σ)
  | noCase
  | fault
  deriving Repr, DecidableEq

/-- What a run does, in order. -/
inductive Event (σ : Type) where
  | lock
  | unlock
  | sync
  | warn (msg : String)
  | stat (size : Option Int)
  | tempFile (name : Option String)
  | register (listener : Nat)
  | hook (id : Nat)
  | newRewriteHandler
  | loadAof (maxBytes : Int)
  | enc (call : EncCall σ)
  | close (name : String)
  | rename (oldpath newpath : String)
  deriving Repr, DecidableEq

/-- The private database a rewrite handler holds after replaying the log, as the dump
sees it: `GetDBSize(i)` and the entries `ForEach(i, ...)` yields, in order (key, non-nil
entity, expiration or nil). -/
structure DB (σ : Type) where
  GetDBSize : Nat → Int × Int
  entries : Nat → List (String × DataEntity σ × Option Time)

/-- `DB.ForEach(i, cb)`: yields the entries of database `i` until `cb` returns false. -/
def DB.ForEach {σ β : Type} (db : DB σ) (i : Nat)
    (cb : β → String × DataEntity σ × Option Time → β × Bool) (init : β) : β :=
  forEachWhile cb init (db.entries i)

/-- The outcome of every external call of one run. -/
structure Env (σ : Type) where
  /-- Result of `persister.aofFile.Sync()`. -/
  syncErr : Option Error
  /-- Result of `os.Stat(persister.aofFilename)`: `none` when it fails, else `Size()`. -/
  statSize : Option Int
  /-- Result of `ioutil.TempFile("", "*.aof")`: the name of the file created. -/
  tempFile : Except Error String
  /-- The database `newRewriteHandler()` holds after `LoadAof(n)`. -/
  load : Int → DB σ
  /-- Result of the encoder call number `k` (counted from 0). -/
  encErr : Nat → Option Error
  /-- Bytes the encoder call number `k` writes to the temp file. -/
  encOut : Nat → Bytes
  /-- Result of `ctx.tmpFile.Close()`. -/
  closeErr : Option Error
  /-- Result of `os.Rename`. -/
  renameErr : Option Error
  /-- Value of `time.Now().Unix()`. -/
  now : Int
  /-- Seed of the iteration order of `range auxMap`. -/
  mapSeed : Nat
  /-- Value of `config.Properties.Databases`. -/
  Databases : Int

/-- File system: the contents found at each path. -/
abbrev FS := String → Option Bytes

/-- Everything a run can change. -/
structure State (σ : Type) where
  fs : FS
  openFiles : List String
  /-- Whether `persister.pausingAof` is held. -/
  pausingAof : Bool
  /-- The keys of `persister.listeners`. -/
  listeners : List Nat
  trace : List (Event σ)
  /-- Number of encoder calls made so far. -/
  encCalls : Nat

/-- `aof.RewriteCtx`. -/
structure RewriteCtx where
  tmpFile : String
  fileSize : Int
  deriving Repr, DecidableEq

variable {σ : Type}

/-- Appends an event to the trace. -/
def State.log (s : State σ) (e : Event σ) : State σ :=
  { s with trace := s.trace ++ [e] }

/-- `persister.pausingAof.Lock()`, from the moment it returns: the lock is held.  The wait
for another holder is outside the model. -/
def State.Lock (s : State σ) : State σ :=
  { s with pausingAof := true, trace := s.trace ++ [Event.lock] }

/-- `persister.pausingAof.Unlock()`. -/
def State.Unlock (s : State σ) : State σ :=
  { s with pausingAof := false, trace := s.trace ++ [Event.unlock] }

/-- Creation of a new empty file, left open. -/
def State.create (s : State σ) (name : String) : State σ :=
  { s with
    fs := fun p => if p = name then some [] else s.fs p
    openFiles := name :: s.openFiles
    trace := s.trace ++ [Event.tempFile (some name)] }

/-- `persister.listeners[newListener] = struct{}{}`. -/
def State.register (s : State σ) (l : Nat) : State σ :=
  { s with
    listeners := if l ∈ s.listeners then s.listeners else l :: s.listeners
    trace := s.trace ++ [Event.register l] }

/-- One encoder call on the encoder bound to the temp file `tmp`: the call is recorded,
its bytes reach the file, and its result is the one the environment gives. -/
def encode (env : Env σ) (tmp : String) (c : EncCall σ) (s : State σ) :
    State σ × Option Error :=
  ({ s with
      fs := fun p => if p = tmp then (s.fs tmp).map (fun b => b ++ env.encOut s.encCalls)
                     else s.fs p
      trace := s.trace ++ [Event.enc c]
      encCalls := s.encCalls + 1 },
   env.encErr s.encCalls)

/-- `ctx.tmpFile.Close()`. -/
def closeFile (env : Env σ) (name : String) (s : State σ) : State σ × Option Error :=
  ({ s with openFiles := s.openFiles.erase name, trace := s.trace ++ [Event.close name] },
   env.closeErr)

/-- `os.Rename(oldpath, newpath)`: on success the file moves onto `newpath`, replacing what
was there; on failure nothing changes. -/
def osRename (env : Env σ) (oldpath newpath : String) (s : State σ) :
    State σ × Option Error :=
  match env.renameErr with
  | some e => (s.log (Event.rename oldpath newpath), some e)
  | none =>
    ({ s with
        fs := fun p => if p = newpath then s.fs oldpath
                       else if p = oldpath then none else s.fs p
        trace := s.trace ++ [Event.rename oldpath newpath] },
     none)

/-- The function `startRewrite2RDB`.  The deferred `Unlock` runs on every exit, the fault
included.  The error of `os.Stat` is dropped by the code, so a failed stat leaves a nil
`FileInfo` whose `Size()` faults.  The listener and the hook are given by identity
(`none` for nil); the invocation of the hook is recorded, what the closure itself does is
outside the model. -/
def startRewrite2RDB (env : Env σ) (newListener hook : Option Nat) (s : State σ) :
    State σ × Outcome RewriteCtx :=
  let s := s.Lock
  match env.syncErr with
  | some e => (((s.log Event.sync).log (Event.warn "fsync failed")).Unlock, Outcome.err e)
  | none =>
    let s := s.log Event.sync
    -- fileInfo, _ := os.Stat(...); filesize := fileInfo.Size()
    match env.statSize with
    | none => ((s.log (Event.stat none)).Unlock, Outcome.fault)
    | some filesize =>
      let s := s.log (Event.stat (some filesize))
      match env.tempFile with
      | Except.error e =>
        (((s.log (Event.tempFile none)).log (Event.warn "tmp file create failed")).Unlock,
          Outcome.err e)
      | Except.ok file =>
        let s := s.create file
        let s := match newListener with
          | some l => s.register l
          | none => s
        let s := match hook with
          | some h => s.log (Event.hook h)
          | none => s
        (s.Unlock, Outcome.ok { tmpFile := file, fileSize := filesize })

/-- Go leaves the iteration order of `range` over a map unspecified: `mapRange seed l`
is the order chosen under `seed`, every entry of `l` being visited once. -/
def mapRange {α : Type} : Nat → List α → List α
  | _, [] => []
  | seed, x :: xs =>
    let rest := mapRange (seed / (xs.length + 1)) xs
    rest.take (seed % (xs.length + 1)) ++ x :: rest.drop (seed % (xs.length + 1))

/-- The map literal `auxMap` of `rewrite2RDB`. -/
def auxMap (now : Int) : List (String × String) :=
  [("redis-ver", "6.0.0"), ("redis-bits", "64"), ("aof-preamble", "0"),
   ("ctime", FormatInt10 now)]

/-- The loop `for k, v := range auxMap`, stopped by the first failing `WriteAux`. -/
def writeAux (env : Env σ) (tmp : String) :
    List (String × String) → State σ → State σ × Option Error
  | [], s => (s, none)
  | (k, v) :: rest, s =>
    match encode env tmp (EncCall.WriteAux k v) s with
    | (s1, some e) => (s1, some e)
    | (s1, none) => writeAux env tmp rest s1

/-- The options slice `opts` the callback builds from `expiration`. -/
def ttlOpts : Option Time → List Opt
  | none => []
  | some expiration => [WithTTL (uint64 (expiration.UnixNano.tdiv 1000000))]

/-- The conversion of a string to its bytes. -/
def stringBytes (m : String) : Bytes := (m.data.flatMap String.utf8EncodeChar).map UInt8.toNat

/-- The sorted-set adapter: the `entries` slice the case `*SortedSet.SortedSet` builds
(`none` when `ForEach` aborts). -/
def zsetEntries [LinearOrder σ] (obj : SortedSet σ) : Option (List (ZSetEntry σ)) :=
  obj.ForEach 0 obj.Len true
    (fun (entries : List (ZSetEntry σ)) element =>
      (entries ++ [{ Member := element.Member, Score := element.Score }], true)) []

/-- The value adapters: the encoder call the type switch on `entity.Data` selects for a
key.  A value of none of the five kinds matches no case. -/
def objectCall [LinearOrder σ] (key : String) (entity : DataEntity σ) (opts : List Opt) :
    Adapted σ :=
  match entity.Data with
  | Data.bytes obj => Adapted.write (EncCall.WriteStringObject key obj opts)
  | Data.list obj =>
    let vals := forEachWhile (fun (vals : List Bytes) v => (vals ++ [v.assertBytes], true)) [] obj
    Adapted.write (EncCall.WriteListObject key vals opts)
  | Data.set obj =>
    let vals := forEachWhile (fun (vals : List Bytes) (m : String) =>
      (vals ++ [stringBytes m], true)) [] obj
    Adapted.write (EncCall.WriteSetObject key vals opts)
  | Data.dict obj =>
    let hash := forEachWhile (fun (hash : HashMap) (kv : String × Val) =>
      (hash.set kv.1 kv.2.assertBytes, true)) [] obj
    Adapted.write (EncCall.WriteHashMapObject key hash opts)
  | Data.zset obj =>
    match zsetEntries obj with
    | some entries => Adapted.write (EncCall.WriteZSetObject key entries opts)
    | none => Adapted.fault
  | Data.other _ => Adapted.noCase

/-- The variables the `ForEach` callback of `rewrite2RDB` captures and assigns, and
whether the callback aborted with a runtime fault. -/
structure DumpVars (σ : Type) where
  state : State σ
  err : Option Error
  err2 : Option Error
  fault : Bool

/-- The callback passed to `tmpHandler.db.ForEach`: the options, the type switch, then
the test of `err`.  A fault inside the switch ends the iteration. -/
def dumpCallback [LinearOrder σ] (env : Env σ) (tmp : String) (v : DumpVars σ)
    (item : String × DataEntity σ × Option Time) : DumpVars σ × Bool :=
  let opts := ttlOpts item.2.2
  let test := fun (v : DumpVars σ) =>
    match v.err with
    | some e => (({ v with err2 := some e } : DumpVars σ), false)
    | none => (v, true)
  match objectCall item.1 item.2.1 opts with
  | Adapted.write call =>
    let r := encode env tmp call v.state
    test { v with state := r.1, err := r.2 }
  | Adapted.noCase => test v
  | Adapted.fault => ({ v with fault := true }, false)

/-- How the dump of one database ends, read off the callback's variables: the fault if
one occurred, else `err2`. -/
def DumpVars.result (v : DumpVars σ) : Outcome Unit :=
  if v.fault then Outcome.fault
  else match v.err2 with
    | some e => Outcome.err e
    | none => Outcome.ok ()

/-- The loop `for i := 0; i < config.Properties.Databases; i++`, over the indices left. -/
def dumpDBs [LinearOrder σ] (env : Env σ) (tmp : String) (db : DB σ) :
    List Nat → State σ → State σ × Outcome Unit
  | [], s => (s, Outcome.ok ())
  | i :: rest, s =>
    let keyCount := (db.GetDBSize i).1
    let ttlCount := (db.GetDBSize i).2
    if keyCount = 0 then dumpDBs env tmp db rest s
    else
      match encode env tmp
          (EncCall.WriteDBHeader (uint64 i) (uint64 keyCount) (uint64 ttlCount)) s with
      | (s1, some e) => (s1, Outcome.err e)
      | (s1, none) =>
        let v := db.ForEach i (dumpCallback env tmp)
          { state := s1, err := none, err2 := none, fault := false }
        match v.result with
        | Outcome.fault => (v.state, Outcome.fault)
        | Outcome.err e => (v.state, Outcome.err e)
        | Outcome.ok _ => dumpDBs env tmp db rest v.state

/-- The function `rewrite2RDB`: it returns nil (`ok`), returns an error, or aborts. -/
def rewrite2RDB [LinearOrder σ] (env : Env σ) (ctx : RewriteCtx) (s : State σ) :
    State σ × Outcome Unit :=
  let s := s.log Event.newRewriteHandler
  let s := s.log (Event.loadAof (int ctx.fileSize))
  let db := env.load (int ctx.fileSize)
  match encode env ctx.tmpFile EncCall.WriteHeader s with
  | (s, some e) => (s, Outcome.err e)
  | (s, none) =>
    match writeAux env ctx.tmpFile (mapRange env.mapSeed (auxMap env.now)) s with
    | (s, some e) => (s, Outcome.err e)
    | (s, none) =>
      match dumpDBs env ctx.tmpFile db (List.range env.Databases.toNat) s with
      | (s, Outcome.err e) => (s, Outcome.err e)
      | (s, Outcome.fault) => (s, Outcome.fault)
      | (s, Outcome.ok _) =>
        match encode env ctx.tmpFile EncCall.WriteEnd s with
        | (s, some e) => (s, Outcome.err e)
        | (s, none) => (s, Outcome.ok ())

/-- The method `Rewrite2RDB`. -/
def Rewrite2RDB [LinearOrder σ] (env : Env σ) (rdbFilename : String) (s : State σ) :
    State σ × Outcome Unit :=
  match startRewrite2RDB env none none s with
  | (s, Outcome.err e) => (s, Outcome.err e)
  | (s, Outcome.fault) => (s, Outcome.fault)
  | (s, Outcome.ok ctx) =>
    match rewrite2RDB env ctx s with
    | (s, Outcome.err e) => (s, Outcome.err e)
    | (s, Outcome.fault) => (s, Outcome.fault)
    | (s, Outcome.ok _) =>
      match closeFile env ctx.tmpFile s with
      | (s, some e) => (s, Outcome.err e)
      | (s, none) =>
        match osRename env ctx.tmpFile rdbFilename s with
        | (s, some e) => (s, Outcome.err e)
        | (s, none) => (s, Outcome.ok ())

/-- The method `Rewrite2RDBForReplication`.  The steps are those of `Rewrite2RDB`, with
the listener and the hook handed to `startRewrite2RDB`.  Its receiver is passed by value
where `Rewrite2RDB` takes a pointer; the declaration of `Persister` is not in the source
under study, and the model threads the same state through both. -/
def Rewrite2RDBForReplication [LinearOrder σ] (env : Env σ) (rdbFilename : String)
    (listener hook : Option Nat) (s : State σ) : State σ × Outcome Unit :=
  match startRewrite2RDB env listener hook s with
  | (s, Outcome.err e) => (s, Outcome.err e)
  | (s, Outcome.fault) => (s, Outcome.fault)
  | (s, Outcome.ok ctx) =>
    match rewrite2RDB env ctx s with
    | (s, Outcome.err e) => (s, Outcome.err e)
    | (s, Outcome.fault) => (s, Outcome.fault)
    | (s, Outcome.ok _) =>
      match closeFile env ctx.tmpFile s with
      | (s, some e) => (s, Outcome.err e)
      | (s, none) =>
        match osRename env ctx.tmpFile rdbFilename s with
        | (s, some e) => (s, Outcome.err e)
        | (s, none) => (s, Outcome.ok ())

/-- The events a call appended: the trace of the state it returned, past the trace of
the state it was given. -/
def eventsSince (s s1 : State σ) : List (Event σ) := s1.trace.drop s.trace.length

/-- Event `a` occurs in `tr` strictly before an occurrence of `b`. -/
def Before (a b : Event σ) (tr : List (Event σ)) : Prop :=
  ∃ l1 l2 l3, tr = l1 ++ a :: l2 ++ b :: l3

/-- Hook invocations. -/
def Event.isHook : Event σ → Bool
  | Event.hook _ => true
  | _ => false

/-- Listener registrations. -/
def Event.isRegister : Event σ → Bool
  | Event.register _ => true
  | _ => false

/-- Calls of `os.Rename`. -/
def Event.isRename : Event σ → Bool
  | Event.rename _ _ => true
  | _ => false

/-- The encoder calls of a trace, in order. -/
def encCallsOf (tr : List (Event σ)) : List (EncCall σ) :=
  tr.filterMap (fun e => match e with
    | Event.enc c => some c
    | _ => none)

/-- The options of an object-write call (none for the other calls). -/
def EncCall.opts : EncCall σ → List Opt
  | EncCall.WriteStringObject _ _ opts => opts
  | EncCall.WriteListObject _ _ opts => opts
  | EncCall.WriteSetObject _ _ opts => opts
  | EncCall.WriteHashMapObject _ _ opts => opts
  | EncCall.WriteZSetObject _ _ opts => opts
  | _ => []

/-- Object-write calls (`Write*Object`). -/
def EncCall.isObject : EncCall σ → Bool
  | EncCall.WriteStringObject _ _ _ => true
  | EncCall.WriteListObject _ _ _ => true
  | EncCall.WriteSetObject _ _ _ => true
  | EncCall.WriteHashMapObject _ _ _ => true
  | EncCall.WriteZSetObject _ _ _ => true
  | _ => false

/-- An initial state: the given files, nothing open, lock free, no listener, no event. -/
def State.init (fs : FS) : State σ :=
  { fs := fs, openFiles := [], pausingAof := false, listeners := [], trace := [], encCalls := 0 }

/-- State `s1` is reached from `s` by making the encoder calls `calls` on the temp file
`tmp` and nothing else. -/
structure Encoded (tmp : String) (s s1 : State σ) (calls : List (EncCall σ)) : Prop where
  trace_eq : s1.trace = s.trace ++ calls.map Event.enc
  fs_other : ∀ p, p ≠ tmp → s1.fs p = s.fs p
  fs_tmp : (s.fs tmp).isSome = true → (s1.fs tmp).isSome = true
  openFiles_eq : s1.openFiles = s.openFiles
  listeners_eq : s1.listeners = s.listeners
  pausingAof_eq : s1.pausingAof = s.pausingAof
  encCalls_eq : s1.encCalls = s.encCalls + calls.length

/-- The encoder calls number `base` to `base + n - 1` all succeed. -/
def CallsOk (env : Env σ) (base n : Nat) : Prop :=
  ∀ k, k < n → env.encErr (base + k) = none

/-- How a stretch of `n` encoder calls starting at call number `base` may end: with nil
or a fault after calls that all succeeded, or with the error of its last call, the
calls before it having succeeded. -/
def Verdict (env : Env σ) (base n : Nat) : Outcome Unit → Prop
  | Outcome.ok _ => CallsOk env base n
  | Outcome.fault => CallsOk env base n
  | Outcome.err e => ∃ m, n = m + 1 ∧ CallsOk env base m ∧ env.encErr (base + m) = some e

/-- The stretch of the run from `s` to `s1` made the encoder calls `calls` and nothing
else, and ended as `r`, which is the verdict of those calls. -/
structure Ran (env : Env σ) (tmp : String) (s s1 : State σ) (calls : List (EncCall σ))
    (r : Outcome Unit) : Prop where
  encoded : Encoded tmp s s1 calls
  verdict : Verdict env s.encCalls calls.length r

/-- A Go `error` result as an outcome. -/
def Outcome.ofError : Option Error → Outcome Unit
  | none => Outcome.ok ()
  | some e => Outcome.err e

/-- What the type switch comes to for one visited entry. -/
def adaptEntry [LinearOrder σ] (item : String × DataEntity σ × Option Time) : Adapted σ :=
  objectCall item.1 item.2.1 (ttlOpts item.2.2)

/-- The encoder call the dump makes for one visited entry, if any. -/
def entryCall [LinearOrder σ] (item : String × DataEntity σ × Option Time) :
    Option (EncCall σ) :=
  match adaptEntry item with
  | Adapted.write call => some call
  | _ => none

/-- The object writes of database `i`: one per visited entry the type switch handles. -/
def objectWrites [LinearOrder σ] (db : DB σ) (i : Nat) : List (EncCall σ) :=
  (db.entries i).filterMap entryCall

/-- The section of database `i`: nothing when its key count is zero, else its header
followed by its object writes. -/
def dbSection [LinearOrder σ] (db : DB σ) (i : Nat) : List (EncCall σ) :=
  if (db.GetDBSize i).1 = 0 then []
  else EncCall.WriteDBHeader (uint64 i) (uint64 (db.GetDBSize i).1) (uint64 (db.GetDBSize i).2)
    :: objectWrites db i

/-- The entry built from an element: same member, same score. -/
def Element.toEntry (e : Element σ) : ZSetEntry σ := { Member := e.Member, Score := e.Score }

/-- Ascending score, ties broken by ascending member, on entries. -/
def ZSetEntry.le [LinearOrder σ] (a b : ZSetEntry σ) : Prop :=
  a.Score < b.Score ∨ (a.Score = b.Score ∧ a.Member ≤ b.Member)

/-- The object write expected for a visited entry, stated without the adapters: the key,
the value flattened in the order of its container (a string as it is, a list and a set
item by item, a hash field by field, a sorted set from its highest rank down), and one
TTL option in milliseconds when the key expires; nothing for a value of another kind. -/
def expectedWrite [LinearOrder σ] (item : String × DataEntity σ × Option Time) :
    Option (EncCall σ) :=
  let opts : List Opt := match item.2.2 with
    | none => []
    | some t => [Opt.TTL ((t.UnixNano.tdiv 1000000) % 2 ^ 64).toNat]
  match item.2.1.Data with
  | Data.bytes b => some (EncCall.WriteStringObject item.1 b opts)
  | Data.list items => some (EncCall.WriteListObject item.1 (items.map Val.assertBytes) opts)
  | Data.set members => some (EncCall.WriteSetObject item.1 (members.map stringBytes) opts)
  | Data.dict fields =>
    some (EncCall.WriteHashMapObject item.1
      (fields.foldl (fun (h : HashMap) kv => h.set kv.1 kv.2.assertBytes) []) opts)
  | Data.zset obj =>
    some (EncCall.WriteZSetObject item.1
      ((obj.elements.insertionSort Element.le).reverse.map Element.toEntry) opts)
  | Data.other _ => none

/-- The section expected for database `i`, stated without the adapters: nothing when its
key count is zero, else the header carrying the index and the two counts as unsigned
64-bit values, followed by the expected object writes of its entries. -/
def expectedSection [LinearOrder σ] (db : DB σ) (i : Nat) : List (EncCall σ) :=
  if (db.GetDBSize i).1 = 0 then []
  else EncCall.WriteDBHeader (i % 2 ^ 64) (((db.GetDBSize i).1 % 2 ^ 64).toNat)
      (((db.GetDBSize i).2 % 2 ^ 64).toNat)
    :: (db.entries i).filterMap expectedWrite

/-- The five kinds the type switch of `rewrite2RDB` has a case for. -/
def Data.isHandled : Data σ → Bool
  | Data.other _ => false
  | _ => true

/-- The events of a successful `startRewrite2RDB`. -/
def startEvents (size : Int) (file : String) (listener hook : Option Nat) : List (Event σ) :=
  [Event.lock, Event.sync, Event.stat (some size), Event.tempFile (some file)] ++
  (match listener with
    | some l => [Event.register l]
    | none => []) ++
  (match hook with
    | some h => [Event.hook h]
    | none => []) ++ [Event.unlock]

/-- A step before the final rename fails with `e` in the run: the step is taken (its
event is in the trace of the run) and the environment answers it with the error `e`.
The steps are the log sync, the temp-file creation, the encoder calls of `rewrite2RDB`
(the call number `k` of the run, counted from the calls made before it) and the
temp-file close. -/
def FailsBeforeRename [LinearOrder σ] (env : Env σ) (rdbFilename : String)
    (listener hook : Option Nat) (s : State σ) (e : Error) : Prop :=
  (Event.sync ∈ eventsSince s (Rewrite2RDBForReplication env rdbFilename listener hook s).1 ∧
    env.syncErr = some e) ∨
  ((∃ name, Event.tempFile name ∈
      eventsSince s (Rewrite2RDBForReplication env rdbFilename listener hook s).1) ∧
    env.tempFile = Except.error e) ∨
  (∃ k, k < (encCallsOf
      (eventsSince s (Rewrite2RDBForReplication env rdbFilename listener hook s).1)).length ∧
    env.encErr (s.encCalls + k) = some e) ∨
  ((∃ name, Event.close name ∈
      eventsSince s (Rewrite2RDBForReplication env rdbFilename listener hook s).1) ∧
    env.closeErr = some e)

/-- A run that gave up with `e` without renaming and left the target path as it was. -/
def TargetPreserved (s : State σ) (rdbFilename : String) (e : Error)
    (r : State σ × Outcome Unit) : Prop :=
  r.2 = Outcome.err e ∧
  (eventsSince s r.1).countP Event.isRename = 0 ∧
  r.1.fs rdbFilename = s.fs rdbFilename

/-- An empty private database. -/
def emptyDB : DB Int :=
  { GetDBSize := fun _ => (0, 0), entries := fun _ => [] }

/-- A run in which every external call succeeds, over an empty log. -/
def envAllOk : Env Int :=
  { syncErr := none, statSize := some 10, tempFile := Except.ok "/tmp/1.aof",
    load := fun _ => emptyDB, encErr := fun _ => none, encOut := fun k => [k],
    closeErr := none, renameErr := none, now := 0, mapSeed := 0, Databases := 2 }

/-- A run in which the log sync fails. -/
def envSyncFails : Env Int := { envAllOk with syncErr := some "sync: input/output error" }

/-- A run in which `os.Stat` of the log file fails. -/
def envStatFails : Env Int := { envAllOk with statSize := none }

/-- A run in which the first encoder write fails. -/
def envEncodeFails : Env Int :=
  { envAllOk with encErr := fun _ => some "write: no space left on device" }

/-- A file system holding an earlier snapshot at `dump.rdb`. -/
def fsWithDump : FS := fun p => if p = "dump.rdb" then some [82, 69, 68, 73, 83] else none

/-- The state the concrete runs start from. -/
def stateZero : State Int := State.init fsWithDump

/-- The context every concrete run below gets from `startRewrite2RDB`. -/
def ctxZero : RewriteCtx := { tmpFile := "/tmp/1.aof", fileSize := 10 }

/-- A run in which only the last encoder call, `WriteEnd` (call number 5 over the empty
database), fails. -/
def envWriteEndFails : Env Int :=
  { envAllOk with
    encErr := fun k => if k = 5 then some "write: no space left on device" else none }

/-- A run in which only the temp-file close fails. -/
def envCloseFails : Env Int := { envAllOk with closeErr := some "close: input/output error" }

instance [LinearOrder σ] : DecidableRel (ZSetEntry.le : ZSetEntry σ → ZSetEntry σ → Prop) :=
  fun a b => by unfold ZSetEntry.le; exact inferInstance

instance [LinearOrder σ] : IsTotal (Element σ) Element.le :=
  ⟨fun a b => by
    unfold Element.le
    rcases lt_trichotomy a.Score b.Score with h | h | h
    · exact Or.inl (Or.inl h)
    · rcases le_total a.Member b.Member with hm | hm
      · exact Or.inl (Or.inr ⟨h, hm⟩)
      · exact Or.inr (Or.inr ⟨h.symm, hm⟩)
    · exact Or.inr (Or.inl h)⟩

instance [LinearOrder σ] : IsTrans (Element σ) Element.le :=
  ⟨fun a b c hab hbc => by
    unfold Element.le at *
    rcases hab with h1 | ⟨h1, m1⟩ <;> rcases hbc with h2 | ⟨h2, m2⟩
    · exact Or.inl (lt_trans h1 h2)
    · exact Or.inl (h2 ▸ h1)
    · exact Or.inl (h1 ▸ h2)
    · exact Or.inr ⟨h1.trans h2, le_trans m1 m2⟩⟩

instance [LinearOrder σ] : IsAntisymm (Element σ) Element.le :=
  ⟨fun a b hab hba => by
    unfold Element.le at *
    obtain ⟨am, as⟩ := a
    obtain ⟨bm, bs⟩ := b
    simp only at hab hba
    rcases hab with h1 | ⟨h1, m1⟩ <;> rcases hba with h2 | ⟨h2, m2⟩
    · exact absurd h1 (not_lt_of_gt h2)
    · exact absurd h1 (by rw [h2]; exact lt_irrefl _)
    · exact absurd h2 (by rw [h1]; exact lt_irrefl _)
    · rw [h1, le_antisymm m1 m2]⟩

/-- A sorted set given with its elements out of order. -/
def zsetBA : SortedSet Int :=
  { elements := [{ Member := "b", Score := 2 }, { Member := "a", Score := 1 }] }

/-- The same sorted set, its elements given in the other order. -/
def zsetAB : SortedSet Int :=
  { elements := [{ Member := "a", Score := 1 }, { Member := "b", Score := 2 }] }

/-- A private database whose database 0 holds a string key and a key whose value is of
none of the five kinds; `GetDBSize` reports what `ForEach` visits. -/
def dbOtherKind : DB Int :=
  { GetDBSize := fun i => if i = 0 then (2, 0) else (0, 0)
    entries := fun i =>
      if i = 0 then [("a", { Data := Data.bytes [49] }, none),
                     ("b", { Data := Data.other 0 }, none)]
      else [] }

/-- A run in which every call succeeds and the log replays to `dbOtherKind`. -/
def envOtherKind : Env Int := { envAllOk with load := fun _ => dbOtherKind }

/-- A sorted set without elements. -/
def zsetEmpty : SortedSet Int := { elements := [] }

/-- A private database whose database 1 holds a string, a list expiring 1.5 seconds after
the epoch and a sorted set, databases 0 and 2 being empty. -/
def dbMixed : DB Int :=
  { GetDBSize := fun i => if i = 1 then (3, 1) else (0, 0)
    entries := fun i =>
      if i = 1 then [("a", { Data := Data.bytes [49] }, none),
                     ("b", { Data := Data.list [Val.bytes [120], Val.bytes [121]] },
                       some { nanos := 1500000000 }),
                     ("z", { Data := Data.zset zsetAB }, none)]
      else [] }

/-- A run in which every call succeeds, the aux fields are visited in another order than
written, and the log replays to `dbMixed` over three databases. -/
def envMixed : Env Int :=
  { envAllOk with load := fun _ => dbMixed, mapSeed := 7, Databases := 3 }

/-- The first instant of the year 2300, as an expiration. -/
def year2300 : Time := { nanos := 10413792000000000000 }

/-! ## Theorems -/

/-- The four ways `startRewrite2RDB` ends, with the state each leaves. -/
theorem startRewrite2RDB_eq (env : Env σ) (newListener hook : Option Nat) (s : State σ) :
    (∃ e, env.syncErr = some e ∧
      startRewrite2RDB env newListener hook s =
        ({ s with pausingAof := false,
                  trace := s.trace ++ [Event.lock, Event.sync, Event.warn "fsync failed",
                    Event.unlock] }, Outcome.err e)) ∨
    (env.syncErr = none ∧ env.statSize = none ∧
      startRewrite2RDB env newListener hook s =
        ({ s with pausingAof := false,
                  trace := s.trace ++ [Event.lock, Event.sync, Event.stat none,
                    Event.unlock] }, Outcome.fault)) ∨
    (∃ size e, env.syncErr = none ∧ env.statSize = some size ∧
      env.tempFile = Except.error e ∧
      startRewrite2RDB env newListener hook s =
        ({ s with pausingAof := false,
                  trace := s.trace ++ [Event.lock, Event.sync, Event.stat (some size),
                    Event.tempFile none, Event.warn "tmp file create failed",
                    Event.unlock] }, Outcome.err e)) ∨
    (∃ size file, env.syncErr = none ∧ env.statSize = some size ∧
      env.tempFile = Except.ok file ∧
      startRewrite2RDB env newListener hook s =
        ({ s with
            fs := fun p => if p = file then some [] else s.fs p
            openFiles := file :: s.openFiles
            pausingAof := false
            listeners := match newListener with
              | some l => if l ∈ s.listeners then s.listeners else l :: s.listeners
              | none => s.listeners
            trace := s.trace ++ [Event.lock, Event.sync, Event.stat (some size),
              Event.tempFile (some file)] ++
              (match newListener with
                | some l => [Event.register l]
                | none => []) ++
              (match hook with
                | some h => [Event.hook h]
                | none => []) ++ [Event.unlock] },
         Outcome.ok { tmpFile := file, fileSize := size })) := by
  unfold startRewrite2RDB
  cases h1 : env.syncErr with
  | some e => left; exact ⟨e, rfl, by simp [State.Lock, State.log, State.Unlock]⟩
  | none =>
    right
    cases h2 : env.statSize with
    | none => left; exact ⟨rfl, rfl, by simp [State.Lock, State.log, State.Unlock]⟩
    | some size =>
      right
      cases h3 : env.tempFile with
      | error e =>
        left; exact ⟨size, e, rfl, rfl, rfl, by simp [State.Lock, State.log, State.Unlock]⟩
      | ok file =>
        right
        refine ⟨size, file, rfl, rfl, rfl, ?_⟩
        cases newListener <;> cases hook <;>
          simp [State.Lock, State.log, State.Unlock, State.create, State.register]

/-- C10. Every run of `startRewrite2RDB` that returns an error is one where the log sync
or the temp-file creation failed with that error; the listener set is what it was before
the call, no listener was registered and no hook invoked during the call, and the pause
lock is free on return, released by the last event of the call. -/
theorem startRewrite2RDB_error_atomic (env : Env σ) (newListener hook : Option Nat)
    (s : State σ) (e : Error)
    (herr : (startRewrite2RDB env newListener hook s).2 = Outcome.err e) :
    (env.syncErr = some e ∨ (env.syncErr = none ∧ env.tempFile = Except.error e)) ∧
    (startRewrite2RDB env newListener hook s).1.listeners = s.listeners ∧
    (eventsSince s (startRewrite2RDB env newListener hook s).1).countP Event.isRegister = 0 ∧
    (eventsSince s (startRewrite2RDB env newListener hook s).1).countP Event.isHook = 0 ∧
    (startRewrite2RDB env newListener hook s).1.pausingAof = false ∧
    (eventsSince s (startRewrite2RDB env newListener hook s).1).getLast? = some Event.unlock := by
  rcases startRewrite2RDB_eq env newListener hook s with
    ⟨e1, h1, h⟩ | ⟨h1, h2, h⟩ | ⟨size, e1, h1, h2, h3, h⟩ | ⟨size, file, h1, h2, h3, h⟩
  · rw [h] at herr ⊢
    simp only [Outcome.err.injEq] at herr
    subst herr
    simp [eventsSince, h1, Event.isRegister, Event.isHook]
  · rw [h] at herr; simp at herr
  · rw [h] at herr ⊢
    simp only [Outcome.err.injEq] at herr
    subst herr
    simp [eventsSince, h1, h3, Event.isRegister, Event.isHook]
  · rw [h] at herr; simp at herr

/-- C5. In every run of `startRewrite2RDB` that succeeds with a listener and a hook, the
events of the call are: lock, sync, stat (the boundary), temp-file creation, registration
of the listener, the hook, unlock.  So the listener is in `persister.listeners` on return,
the registration and the hook invocation occur exactly once each, both after the lock
was acquired and the log size read, both before the lock is released (acquired and
released once), and the registration comes before the hook. -/
theorem startRewrite2RDB_pause_window [DecidableEq σ] (env : Env σ) (l h : Nat) (s : State σ)
    (ctx : RewriteCtx)
    (hok : (startRewrite2RDB env (some l) (some h) s).2 = Outcome.ok ctx) :
    l ∈ (startRewrite2RDB env (some l) (some h) s).1.listeners ∧
    eventsSince s (startRewrite2RDB env (some l) (some h) s).1 =
      [Event.lock, Event.sync, Event.stat (some ctx.fileSize),
       Event.tempFile (some ctx.tmpFile), Event.register l, Event.hook h, Event.unlock] ∧
    (eventsSince s (startRewrite2RDB env (some l) (some h) s).1).countP Event.isRegister = 1 ∧
    (eventsSince s (startRewrite2RDB env (some l) (some h) s).1).countP Event.isHook = 1 ∧
    (eventsSince s (startRewrite2RDB env (some l) (some h) s).1).count Event.lock = 1 ∧
    (eventsSince s (startRewrite2RDB env (some l) (some h) s).1).count Event.unlock = 1 ∧
    Before Event.lock (Event.register l)
      (eventsSince s (startRewrite2RDB env (some l) (some h) s).1) ∧
    Before Event.lock (Event.hook h)
      (eventsSince s (startRewrite2RDB env (some l) (some h) s).1) ∧
    Before (Event.stat (some ctx.fileSize)) (Event.register l)
      (eventsSince s (startRewrite2RDB env (some l) (some h) s).1) ∧
    Before (Event.stat (some ctx.fileSize)) (Event.hook h)
      (eventsSince s (startRewrite2RDB env (some l) (some h) s).1) ∧
    Before (Event.register l) (Event.hook h)
      (eventsSince s (startRewrite2RDB env (some l) (some h) s).1) ∧
    Before (Event.register l) Event.unlock
      (eventsSince s (startRewrite2RDB env (some l) (some h) s).1) ∧
    Before (Event.hook h) Event.unlock
      (eventsSince s (startRewrite2RDB env (some l) (some h) s).1) := by
  rcases startRewrite2RDB_eq env (some l) (some h) s with
    ⟨e1, h1, hs⟩ | ⟨h1, h2, hs⟩ | ⟨size, e1, h1, h2, h3, hs⟩ | ⟨size, file, h1, h2, h3, hs⟩
  · rw [hs] at hok; simp at hok
  · rw [hs] at hok; simp at hok
  · rw [hs] at hok; simp at hok
  · rw [hs] at hok ⊢
    simp only [Outcome.ok.injEq] at hok
    subst hok
    have htr : eventsSince s
        { s with
            fs := fun p => if p = file then some [] else s.fs p
            openFiles := file :: s.openFiles
            pausingAof := false
            listeners := if l ∈ s.listeners then s.listeners else l :: s.listeners
            trace := s.trace ++ [Event.lock, Event.sync, Event.stat (some size),
              Event.tempFile (some file)] ++ [Event.register l] ++ [Event.hook h] ++
              [Event.unlock] } =
        [Event.lock, Event.sync, Event.stat (some size), Event.tempFile (some file),
          Event.register l, Event.hook h, Event.unlock] := by
      simp [eventsSince]
    simp only [htr]
    refine ⟨?_, trivial, ?_, ?_, ?_, ?_, ?_, ?_, ?_, ?_, ?_, ?_, ?_⟩
    · by_cases hl : l ∈ s.listeners <;> simp [hl]
    · simp [Event.isRegister]
    · simp [Event.isHook]
    · simp
    · simp
    · exact ⟨[], [Event.sync, Event.stat (some size), Event.tempFile (some file)],
        [Event.hook h, Event.unlock], rfl⟩
    · exact ⟨[], [Event.sync, Event.stat (some size), Event.tempFile (some file),
        Event.register l], [Event.unlock], rfl⟩
    · exact ⟨[Event.lock, Event.sync], [Event.tempFile (some file)],
        [Event.hook h, Event.unlock], rfl⟩
    · exact ⟨[Event.lock, Event.sync], [Event.tempFile (some file), Event.register l],
        [Event.unlock], rfl⟩
    · exact ⟨[Event.lock, Event.sync, Event.stat (some size), Event.tempFile (some file)],
        [], [Event.unlock], rfl⟩
    · exact ⟨[Event.lock, Event.sync, Event.stat (some size), Event.tempFile (some file)],
        [Event.hook h], [], rfl⟩
    · exact ⟨[Event.lock, Event.sync, Event.stat (some size), Event.tempFile (some file),
        Event.register l], [], [], rfl⟩

theorem Encoded.refl (tmp : String) (s : State σ) : Encoded tmp s s [] :=
  ⟨by simp, fun _ _ => rfl, fun h => h, rfl, rfl, rfl, rfl⟩

theorem Encoded.trans {tmp : String} {s s1 s2 : State σ} {c1 c2 : List (EncCall σ)}
    (h1 : Encoded tmp s s1 c1) (h2 : Encoded tmp s1 s2 c2) : Encoded tmp s s2 (c1 ++ c2) :=
  ⟨by rw [h2.trace_eq, h1.trace_eq]; simp,
   fun p hp => by rw [h2.fs_other p hp, h1.fs_other p hp],
   fun h => h2.fs_tmp (h1.fs_tmp h),
   by rw [h2.openFiles_eq, h1.openFiles_eq],
   by rw [h2.listeners_eq, h1.listeners_eq],
   by rw [h2.pausingAof_eq, h1.pausingAof_eq],
   by rw [h2.encCalls_eq, h1.encCalls_eq, List.length_append, Nat.add_assoc]⟩

theorem encode_encoded (env : Env σ) (tmp : String) (c : EncCall σ) (s : State σ) :
    Encoded tmp s (encode env tmp c s).1 [c] := by
  refine ⟨by simp [encode], ?_, ?_, rfl, rfl, rfl, rfl⟩
  · intro p hp
    simp [encode, hp]
  · intro h
    simp only [encode, if_true]
    cases hfs : s.fs tmp with
    | none => rw [hfs] at h; simp at h
    | some b => simp

theorem CallsOk.zero (env : Env σ) (base : Nat) : CallsOk env base 0 :=
  fun _ hk => absurd hk (Nat.not_lt_zero _)

theorem CallsOk.append {env : Env σ} {base n m : Nat}
    (h1 : CallsOk env base n) (h2 : CallsOk env (base + n) m) : CallsOk env base (n + m) := by
  intro k hk
  by_cases hkn : k < n
  · exact h1 k hkn
  · have := h2 (k - n) (by omega)
    rwa [show base + n + (k - n) = base + k by omega] at this

/-- A failing encoder call inside a stretch decides how the stretch ends: with that
error. -/
theorem Verdict.of_failing_call {env : Env σ} {base n : Nat} {r : Outcome Unit}
    (h : Verdict env base n r) {k : Nat} {e : Error} (hk : k < n)
    (he : env.encErr (base + k) = some e) : r = Outcome.err e := by
  cases r with
  | ok u => have := h k hk; rw [he] at this; simp at this
  | fault => have := h k hk; rw [he] at this; simp at this
  | err e1 =>
    obtain ⟨m, hn, hok, hm⟩ := h
    by_cases hkm : k < m
    · have := hok k hkm; rw [he] at this; simp at this
    · have hkeq : k = m := by omega
      subst hkeq
      rw [he] at hm
      simp only [Option.some.injEq] at hm
      rw [hm]

theorem Ran.start (env : Env σ) (tmp : String) (s : State σ) :
    Ran env tmp s s [] (Outcome.ok ()) :=
  ⟨Encoded.refl tmp s, CallsOk.zero env _⟩

theorem Ran.seq {env : Env σ} {tmp : String} {s s1 s2 : State σ}
    {c1 c2 : List (EncCall σ)} {u : Unit} {r : Outcome Unit}
    (h1 : Ran env tmp s s1 c1 (Outcome.ok u)) (h2 : Ran env tmp s1 s2 c2 r) :
    Ran env tmp s s2 (c1 ++ c2) r := by
  refine ⟨h1.encoded.trans h2.encoded, ?_⟩
  have hv1 : CallsOk env s.encCalls c1.length := h1.verdict
  have hv2 := h2.verdict
  rw [h1.encoded.encCalls_eq] at hv2
  rw [List.length_append]
  cases r with
  | ok u2 => exact hv1.append hv2
  | fault => exact hv1.append hv2
  | err e =>
    obtain ⟨m, hn, hok, hm⟩ := hv2
    refine ⟨c1.length + m, by omega, hv1.append hok, ?_⟩
    rw [← Nat.add_assoc]; exact hm

theorem encode_ran (env : Env σ) (tmp : String) (c : EncCall σ) (s : State σ) :
    Ran env tmp s (encode env tmp c s).1 [c] (Outcome.ofError (encode env tmp c s).2) := by
  refine ⟨encode_encoded env tmp c s, ?_⟩
  show Verdict env s.encCalls 1 (Outcome.ofError (env.encErr s.encCalls))
  cases h : env.encErr s.encCalls with
  | none =>
    intro k hk
    have : k = 0 := by omega
    subst this
    simpa using h
  | some e => exact ⟨0, rfl, CallsOk.zero env _, by simpa using h⟩

theorem writeAux_ran (env : Env σ) (tmp : String) (l : List (String × String))
    (s : State σ) :
    ∃ calls, Ran env tmp s (writeAux env tmp l s).1 calls
        (Outcome.ofError (writeAux env tmp l s).2) ∧
      ((writeAux env tmp l s).2 = none → calls = l.map (fun kv => EncCall.WriteAux kv.1 kv.2)) := by
  induction l generalizing s with
  | nil => exact ⟨[], by simpa [writeAux, Outcome.ofError] using Ran.start env tmp s, by simp⟩
  | cons kv rest ih =>
    obtain ⟨k, v⟩ := kv
    have h1 := encode_ran env tmp (EncCall.WriteAux k v) s
    unfold writeAux
    cases hr : encode env tmp (EncCall.WriteAux k v) s with
    | mk s1 r =>
      rw [hr] at h1
      cases r with
      | some e => exact ⟨[EncCall.WriteAux k v], h1, by simp⟩
      | none =>
        obtain ⟨calls, hc, hn⟩ := ih s1
        refine ⟨[EncCall.WriteAux k v] ++ calls, h1.seq hc, ?_⟩
        intro hnone
        simp [hn hnone]

theorem forEachWhile_collect {α β : Type} (f : α → β) (init : List β) (l : List α) :
    forEachWhile (fun (acc : List β) x => (acc ++ [f x], true)) init l = init ++ l.map f := by
  induction l generalizing init with
  | nil => simp [forEachWhile]
  | cons x xs ih => simp [forEachWhile, ih]

theorem forEachWhile_fold {α β : Type} (f : β → α → β) (init : β) (l : List α) :
    forEachWhile (fun acc x => (f acc x, true)) init l = l.foldl f init := by
  induction l generalizing init with
  | nil => simp [forEachWhile]
  | cons x xs ih => simp [forEachWhile, ih]

theorem ranked_length [LinearOrder σ] (obj : SortedSet σ) :
    obj.ranked.length = obj.elements.length := by
  unfold SortedSet.ranked
  exact List.length_insertionSort _ _

/-- What the sorted-set adapter builds: nothing for an empty set, on which `ForEach`
aborts, and else one entry per element from the highest rank down. -/
theorem zsetEntries_eq [LinearOrder σ] (obj : SortedSet σ) :
    (obj.elements = [] → zsetEntries obj = none) ∧
    (obj.elements ≠ [] →
      zsetEntries obj = some (obj.ranked.reverse.map Element.toEntry)) := by
  constructor
  · intro h
    simp [zsetEntries, SortedSet.ForEach, SortedSet.Len, h]
  · intro h
    have hpos : 0 < obj.elements.length := List.length_pos.mpr h
    have htake : (List.drop (0 : Int).toNat obj.ranked.reverse).take
        (((obj.elements.length : Int) - 0).toNat) = obj.ranked.reverse := by
      simp [← ranked_length]
    have hc1 : ¬ ((0 : Int) < 0 ∨ (0 : Int) ≥ (obj.elements.length : Int)) := by omega
    have hc2 : ¬ ((obj.elements.length : Int) < 0 ∨
        (obj.elements.length : Int) > (obj.elements.length : Int)) := by omega
    simp only [zsetEntries, SortedSet.ForEach, SortedSet.Len, hc1, hc2, if_false, if_true,
      htake]
    exact congrArg some (forEachWhile_collect Element.toEntry [] obj.ranked.reverse)

theorem uint64_natCast (i : Nat) : uint64 (i : Int) = i % 2 ^ 64 := by
  unfold uint64
  omega

theorem ttlOpts_eq (exp : Option Time) :
    ttlOpts exp = (match exp with
      | none => []
      | some t => [Opt.TTL ((t.UnixNano.tdiv 1000000) % 2 ^ 64).toNat]) := by
  cases exp <;> rfl

/-- Unless the type switch faults, the call the dump makes for an entry is the expected
object write. -/
theorem entryCall_eq_expected [LinearOrder σ] (item : String × DataEntity σ × Option Time)
    (h : adaptEntry item ≠ Adapted.fault) : entryCall item = expectedWrite item := by
  obtain ⟨key, ⟨data⟩, exp⟩ := item
  unfold entryCall
  unfold adaptEntry at h ⊢
  unfold expectedWrite
  simp only [← ttlOpts_eq]
  cases data with
  | bytes b => simp [objectCall]
  | list items => simp [objectCall, forEachWhile_collect]
  | set members => simp [objectCall, forEachWhile_collect]
  | dict fields => simp [objectCall, forEachWhile_fold]
  | zset obj =>
    by_cases hne : obj.elements = []
    · exfalso
      apply h
      simp [objectCall, (zsetEntries_eq obj).1 hne]
    · simp [objectCall, (zsetEntries_eq obj).2 hne, SortedSet.ranked]
  | other t => simp [objectCall]

theorem dbSection_eq_expected [LinearOrder σ] (db : DB σ) (i : Nat)
    (h : (db.GetDBSize i).1 ≠ 0 → ∀ item ∈ db.entries i, adaptEntry item ≠ Adapted.fault) :
    dbSection db i = expectedSection db i := by
  unfold dbSection expectedSection
  by_cases hk : (db.GetDBSize i).1 = 0
  · simp [hk]
  · simp only [hk, if_false, objectWrites, uint64_natCast]
    congr 1
    apply List.filterMap_congr
    intro item hitem
    exact entryCall_eq_expected item (h hk item hitem)

theorem dumpCallback_step [LinearOrder σ] (env : Env σ) (tmp : String) (v : DumpVars σ)
    (item : String × DataEntity σ × Option Time)
    (hv : v.err = none) (hv2 : v.err2 = none) (hvf : v.fault = false) :
    ((dumpCallback env tmp v item).2 = true ∧
      (dumpCallback env tmp v item).1.err = none ∧
      (dumpCallback env tmp v item).1.err2 = none ∧
      (dumpCallback env tmp v item).1.fault = false ∧
      adaptEntry item ≠ Adapted.fault ∧
      Ran env tmp v.state (dumpCallback env tmp v item).1.state (entryCall item).toList
        (Outcome.ok ())) ∨
    ((dumpCallback env tmp v item).2 = false ∧
      Ran env tmp v.state (dumpCallback env tmp v item).1.state (entryCall item).toList
        (dumpCallback env tmp v item).1.result ∧
      (dumpCallback env tmp v item).1.result ≠ Outcome.ok ()) := by
  have h0 : adaptEntry item = objectCall item.1 item.2.1 (ttlOpts item.2.2) := rfl
  simp only [dumpCallback, entryCall, h0]
  cases hc : objectCall item.1 item.2.1 (ttlOpts item.2.2) with
  | fault =>
    right
    refine ⟨by simp, ?_, ?_⟩
    · simpa [DumpVars.result] using
        (⟨Encoded.refl tmp v.state, CallsOk.zero env _⟩ :
          Ran env tmp v.state v.state [] Outcome.fault)
    · simp [DumpVars.result]
  | noCase =>
    left
    simp only [hv]
    refine ⟨by simp, by simp [hv], by simp [hv2], by simp [hvf], by simp, ?_⟩
    simpa using Ran.start env tmp v.state
  | write call =>
    have h1 := encode_ran env tmp call v.state
    cases hr : (encode env tmp call v.state).2 with
    | none =>
      left
      rw [hr] at h1
      simp only [hr]
      refine ⟨by simp, by simp, by simp [hv2], by simp [hvf], by simp, ?_⟩
      simpa [Outcome.ofError] using h1
    | some e =>
      right
      rw [hr] at h1
      simp only [hr]
      refine ⟨by simp, ?_, ?_⟩
      · simpa [DumpVars.result, hvf, Outcome.ofError] using h1
      · simp [DumpVars.result, hvf]

theorem forEach_dump_ran [LinearOrder σ] (env : Env σ) (tmp : String)
    (items : List (String × DataEntity σ × Option Time)) (v : DumpVars σ)
    (hv : v.err = none) (hv2 : v.err2 = none) (hvf : v.fault = false) :
    ∃ calls,
      Ran env tmp v.state (forEachWhile (dumpCallback env tmp) v items).state calls
        (forEachWhile (dumpCallback env tmp) v items).result ∧
      ((forEachWhile (dumpCallback env tmp) v items).result = Outcome.ok () →
        calls = items.filterMap entryCall ∧
        ∀ item ∈ items, adaptEntry item ≠ Adapted.fault) := by
  induction items generalizing v with
  | nil =>
    refine ⟨[], ?_, by simp⟩
    simpa [forEachWhile, DumpVars.result, hv2, hvf] using Ran.start env tmp v.state
  | cons item rest ih =>
    have hstep := dumpCallback_step env tmp v item hv hv2 hvf
    unfold forEachWhile
    cases hr : dumpCallback env tmp v item with
    | mk v1 go =>
      rw [hr] at hstep
      cases go with
      | true =>
        rcases hstep with ⟨_, he, he2, hf, hnf, hran⟩ | ⟨hfalse, _, _⟩
        · obtain ⟨calls, hc, hn⟩ := ih v1 he he2 hf
          refine ⟨(entryCall item).toList ++ calls, hran.seq hc, ?_⟩
          intro hok
          obtain ⟨hcalls, hall⟩ := hn hok
          refine ⟨?_, ?_⟩
          · rw [hcalls]
            cases hi : entryCall item <;> simp [List.filterMap_cons, hi]
          · intro x hx
            rcases List.mem_cons.mp hx with rfl | hx
            · exact hnf
            · exact hall x hx
        · simp at hfalse
      | false =>
        rcases hstep with ⟨htrue, _⟩ | ⟨_, hran, hne⟩
        · simp at htrue
        · exact ⟨(entryCall item).toList, hran, fun hok => absurd hok hne⟩

theorem dumpDBs_ran [LinearOrder σ] (env : Env σ) (tmp : String) (db : DB σ)
    (idxs : List Nat) (s : State σ) :
    ∃ calls, Ran env tmp s (dumpDBs env tmp db idxs s).1 calls (dumpDBs env tmp db idxs s).2 ∧
      ((dumpDBs env tmp db idxs s).2 = Outcome.ok () →
        calls = idxs.flatMap (dbSection db) ∧
        ∀ i ∈ idxs, (db.GetDBSize i).1 ≠ 0 →
          ∀ item ∈ db.entries i, adaptEntry item ≠ Adapted.fault) := by
  induction idxs generalizing s with
  | nil => exact ⟨[], by simpa [dumpDBs] using Ran.start env tmp s, by simp⟩
  | cons i rest ih =>
    unfold dumpDBs
    by_cases hk : (db.GetDBSize i).1 = 0
    · simp only [hk, if_true]
      obtain ⟨calls, hc, hn⟩ := ih s
      refine ⟨calls, hc, fun hok => ?_⟩
      obtain ⟨h1, h2⟩ := hn hok
      refine ⟨by simp [h1, dbSection, hk], ?_⟩
      intro j hj hjk
      rcases List.mem_cons.mp hj with rfl | hj
      · exact absurd hk hjk
      · exact h2 j hj hjk
    · simp only [hk, if_false]
      have h1 := encode_ran env tmp (EncCall.WriteDBHeader (uint64 i)
        (uint64 (db.GetDBSize i).1) (uint64 (db.GetDBSize i).2)) s
      cases hr : encode env tmp (EncCall.WriteDBHeader (uint64 i)
        (uint64 (db.GetDBSize i).1) (uint64 (db.GetDBSize i).2)) s with
      | mk s1 r =>
        rw [hr] at h1
        cases r with
        | some e => exact ⟨_, h1, by simp⟩
        | none =>
          simp only [DB.ForEach]
          obtain ⟨c2, hc2, hn2⟩ := forEach_dump_ran env tmp (db.entries i)
            { state := s1, err := none, err2 := none, fault := false } rfl rfl rfl
          cases he : (forEachWhile (dumpCallback env tmp)
            { state := s1, err := none, err2 := none, fault := false }
            (db.entries i)).result with
          | fault =>
            rw [he] at hc2
            exact ⟨_, (show Ran env tmp s s1 _ (Outcome.ok ()) from h1).seq hc2, by simp⟩
          | err e =>
            rw [he] at hc2
            exact ⟨_, (show Ran env tmp s s1 _ (Outcome.ok ()) from h1).seq hc2, by simp⟩
          | ok u =>
            rw [he] at hc2
            simp only
            obtain ⟨c3, hc3, hn3⟩ := ih (forEachWhile (dumpCallback env tmp)
              { state := s1, err := none, err2 := none, fault := false }
              (db.entries i)).state
            refine ⟨_, ((show Ran env tmp s s1 _ (Outcome.ok ()) from h1).seq hc2).seq hc3,
              ?_⟩
            intro hok
            obtain ⟨hcalls2, hall2⟩ := hn2 he
            obtain ⟨hcalls3, hall3⟩ := hn3 hok
            refine ⟨?_, ?_⟩
            · rw [hcalls2, hcalls3]
              simp [dbSection, hk, objectWrites]
            · intro j hj hjk
              rcases List.mem_cons.mp hj with rfl | hj
              · exact hall2
              · exact hall3 j hj hjk

theorem mapRange_perm {α : Type} (seed : Nat) (l : List α) : (mapRange seed l).Perm l := by
  induction l generalizing seed with
  | nil => simp [mapRange]
  | cons x xs ih =>
    simp only [mapRange]
    refine List.perm_middle.trans (List.Perm.cons x ?_)
    rw [List.take_append_drop]
    exact ih _

/-- The shape of every run of `rewrite2RDB`: a handler is made, the log is loaded up to
`ctx.fileSize`, then come encoder calls on the temp file only, and the run ends as the
verdict of those calls; when it returns nil the calls are the header, the aux fields in
some order, the database sections in ascending order of index, and the end marker, and
no entry of a dumped database made the type switch fault. -/
theorem rewrite2RDB_ran [LinearOrder σ] (env : Env σ) (ctx : RewriteCtx) (s : State σ) :
    ∃ calls,
      Ran env ctx.tmpFile
        ((s.log Event.newRewriteHandler).log (Event.loadAof (int ctx.fileSize)))
        (rewrite2RDB env ctx s).1 calls (rewrite2RDB env ctx s).2 ∧
      ((rewrite2RDB env ctx s).2 = Outcome.ok () →
        (∃ aux : List (String × String), aux.Perm (auxMap env.now) ∧
          calls = [EncCall.WriteHeader] ++ aux.map (fun kv => EncCall.WriteAux kv.1 kv.2) ++
            (List.range env.Databases.toNat).flatMap (dbSection (env.load (int ctx.fileSize))) ++
            [EncCall.WriteEnd]) ∧
        ∀ i ∈ List.range env.Databases.toNat,
          ((env.load (int ctx.fileSize)).GetDBSize i).1 ≠ 0 →
          ∀ item ∈ (env.load (int ctx.fileSize)).entries i,
            adaptEntry item ≠ Adapted.fault) := by
  unfold rewrite2RDB
  simp only
  generalize (s.log Event.newRewriteHandler).log (Event.loadAof (int ctx.fileSize)) = s0
  have h1 := encode_ran env ctx.tmpFile EncCall.WriteHeader s0
  cases hr1 : encode env ctx.tmpFile EncCall.WriteHeader s0 with
  | mk s1 r1 =>
    rw [hr1] at h1
    cases r1 with
    | some e => exact ⟨_, h1, by simp⟩
    | none =>
      simp only
      obtain ⟨c2, h2, hn2⟩ := writeAux_ran env ctx.tmpFile
        (mapRange env.mapSeed (auxMap env.now)) s1
      cases hr2 : writeAux env ctx.tmpFile (mapRange env.mapSeed (auxMap env.now)) s1 with
      | mk s2 r2 =>
        rw [hr2] at h2 hn2
        have h12 := (show Ran env ctx.tmpFile s0 s1 _ (Outcome.ok ()) from h1).seq h2
        cases r2 with
        | some e => exact ⟨_, h12, by simp⟩
        | none =>
          simp only
          obtain ⟨c3, h3, hn3⟩ := dumpDBs_ran env ctx.tmpFile
            (env.load (int ctx.fileSize)) (List.range env.Databases.toNat) s2
          cases hr3 : dumpDBs env ctx.tmpFile (env.load (int ctx.fileSize))
              (List.range env.Databases.toNat) s2 with
          | mk s3 r3 =>
            rw [hr3] at h3 hn3
            have h123 := (show Ran env ctx.tmpFile s0 s2 _ (Outcome.ok ()) from h12).seq h3
            cases r3 with
            | err e => exact ⟨_, h123, by simp⟩
            | fault => exact ⟨_, h123, by simp⟩
            | ok u =>
              simp only
              have h4 := encode_ran env ctx.tmpFile EncCall.WriteEnd s3
              cases hr4 : encode env ctx.tmpFile EncCall.WriteEnd s3 with
              | mk s4 r4 =>
                rw [hr4] at h4
                have h1234 := h123.seq h4
                cases r4 with
                | some e => exact ⟨_, h1234, by simp⟩
                | none =>
                  refine ⟨_, h1234, fun _ => ?_⟩
                  obtain ⟨hc3, hall⟩ := hn3 rfl
                  exact ⟨⟨mapRange env.mapSeed (auxMap env.now), mapRange_perm _ _,
                    by rw [hn2 rfl, hc3]⟩, hall⟩

theorem eventsSince_of_trace_eq (s s1 : State σ) (evs : List (Event σ))
    (h : s1.trace = s.trace ++ evs) : eventsSince s s1 = evs := by
  simp [eventsSince, h]

theorem encCallsOf_append (a b : List (Event σ)) :
    encCallsOf (a ++ b) = encCallsOf a ++ encCallsOf b := by
  simp [encCallsOf]

theorem encCallsOf_map_enc (calls : List (EncCall σ)) :
    encCallsOf (calls.map Event.enc) = calls := by
  induction calls with
  | nil => rfl
  | cons c cs ih => simpa [encCallsOf] using ih

theorem countP_isRename_map_enc (calls : List (EncCall σ)) :
    (calls.map Event.enc).countP Event.isRename = 0 := by
  induction calls with
  | nil => rfl
  | cons c cs ih => simp [Event.isRename, List.countP_cons]

theorem encCallsOf_startEvents (size : Int) (file : String) (listener hook : Option Nat) :
    encCallsOf (startEvents size file listener hook : List (Event σ)) = [] := by
  cases listener <;> cases hook <;> simp [startEvents, encCallsOf]

theorem countP_isRename_startEvents (size : Int) (file : String) (listener hook : Option Nat) :
    (startEvents size file listener hook : List (Event σ)).countP Event.isRename = 0 := by
  cases listener <;> cases hook <;> simp [startEvents, Event.isRename]

theorem close_not_mem_startEvents (size : Int) (file : String) (listener hook : Option Nat)
    (name : String) :
    Event.close name ∉ (startEvents size file listener hook : List (Event σ)) := by
  cases listener <;> cases hook <;> simp [startEvents]

/-- What a successful `startRewrite2RDB` leaves: its context, its events, and a state
that differs from the one it was given by the new, empty, open temp file (and the
listener). -/
theorem startRewrite2RDB_ok_facts (env : Env σ) (listener hook : Option Nat) (s : State σ)
    (size : Int) (file : String)
    (h1 : env.syncErr = none) (h2 : env.statSize = some size)
    (h3 : env.tempFile = Except.ok file) :
    (startRewrite2RDB env listener hook s).2 =
      Outcome.ok { tmpFile := file, fileSize := size } ∧
    (startRewrite2RDB env listener hook s).1.trace =
      s.trace ++ startEvents size file listener hook ∧
    (startRewrite2RDB env listener hook s).1.encCalls = s.encCalls ∧
    (∀ p, p ≠ file → (startRewrite2RDB env listener hook s).1.fs p = s.fs p) ∧
    ((startRewrite2RDB env listener hook s).1.fs file).isSome = true ∧
    file ∈ (startRewrite2RDB env listener hook s).1.openFiles := by
  rcases startRewrite2RDB_eq env listener hook s with
    ⟨e1, g1, g⟩ | ⟨g1, g2, g⟩ | ⟨sz, e1, g1, g2, g3, g⟩ | ⟨sz, fl, g1, g2, g3, g⟩
  · rw [g1] at h1; simp at h1
  · rw [g2] at h2; simp at h2
  · rw [g3] at h3; simp at h3
  · rw [g2] at h2; rw [g3] at h3
    simp only [Option.some.injEq] at h2
    simp only [Except.ok.injEq] at h3
    subst h2; subst h3
    rw [g]
    refine ⟨rfl, ?_, rfl, ?_, ?_, ?_⟩
    · simp [startEvents]
    · intro p hp; simp [hp]
    · simp
    · simp

/-- The eight ways a run of the pipeline ends, each with the answers of the environment
that lead to it, its result, its events and what it left in the file system. -/
theorem pipeline_cases [LinearOrder σ] (env : Env σ) (rdbFilename : String)
    (listener hook : Option Nat) (s : State σ) :
    (∃ e1, env.syncErr = some e1 ∧
      (Rewrite2RDBForReplication env rdbFilename listener hook s).2 = Outcome.err e1 ∧
      eventsSince s (Rewrite2RDBForReplication env rdbFilename listener hook s).1 =
        [Event.lock, Event.sync, Event.warn "fsync failed", Event.unlock] ∧
      (Rewrite2RDBForReplication env rdbFilename listener hook s).1.fs = s.fs) ∨
    (env.syncErr = none ∧ env.statSize = none ∧
      (Rewrite2RDBForReplication env rdbFilename listener hook s).2 = Outcome.fault ∧
      eventsSince s (Rewrite2RDBForReplication env rdbFilename listener hook s).1 =
        [Event.lock, Event.sync, Event.stat none, Event.unlock] ∧
      (Rewrite2RDBForReplication env rdbFilename listener hook s).1.fs = s.fs) ∨
    (∃ size e1, env.syncErr = none ∧ env.statSize = some size ∧
      env.tempFile = Except.error e1 ∧
      (Rewrite2RDBForReplication env rdbFilename listener hook s).2 = Outcome.err e1 ∧
      eventsSince s (Rewrite2RDBForReplication env rdbFilename listener hook s).1 =
        [Event.lock, Event.sync, Event.stat (some size), Event.tempFile none,
          Event.warn "tmp file create failed", Event.unlock] ∧
      (Rewrite2RDBForReplication env rdbFilename listener hook s).1.fs = s.fs) ∨
    (∃ (size : Int) (file : String) (calls : List (EncCall σ)) (tail : List (Event σ)),
      env.syncErr = none ∧ env.statSize = some size ∧ env.tempFile = Except.ok file ∧
      (startRewrite2RDB env listener hook s).2 =
        Outcome.ok { tmpFile := file, fileSize := size } ∧
      eventsSince s (Rewrite2RDBForReplication env rdbFilename listener hook s).1 =
        startEvents size file listener hook ++
          [Event.newRewriteHandler, Event.loadAof (int size)] ++
          calls.map Event.enc ++ tail ∧
      Verdict env s.encCalls calls.length
        (rewrite2RDB env { tmpFile := file, fileSize := size }
          (startRewrite2RDB env listener hook s).1).2 ∧
      ((rewrite2RDB env { tmpFile := file, fileSize := size }
          (startRewrite2RDB env listener hook s).1).2 = Outcome.ok () →
        (∃ aux : List (String × String), aux.Perm (auxMap env.now) ∧
          calls = [EncCall.WriteHeader] ++ aux.map (fun kv => EncCall.WriteAux kv.1 kv.2) ++
            (List.range env.Databases.toNat).flatMap (dbSection (env.load (int size))) ++
            [EncCall.WriteEnd])) ∧
      ((∃ e1, (rewrite2RDB env { tmpFile := file, fileSize := size }
            (startRewrite2RDB env listener hook s).1).2 = Outcome.err e1 ∧
          (Rewrite2RDBForReplication env rdbFilename listener hook s).2 = Outcome.err e1 ∧
          tail = [] ∧
          (∀ p, p ≠ file →
            (Rewrite2RDBForReplication env rdbFilename listener hook s).1.fs p = s.fs p) ∧
          ((Rewrite2RDBForReplication env rdbFilename listener hook s).1.fs file).isSome
            = true) ∨
        ((rewrite2RDB env { tmpFile := file, fileSize := size }
            (startRewrite2RDB env listener hook s).1).2 = Outcome.fault ∧
          (Rewrite2RDBForReplication env rdbFilename listener hook s).2 = Outcome.fault ∧
          tail = [] ∧
          (∀ p, p ≠ file →
            (Rewrite2RDBForReplication env rdbFilename listener hook s).1.fs p = s.fs p) ∧
          ((Rewrite2RDBForReplication env rdbFilename listener hook s).1.fs file).isSome
            = true) ∨
        (∃ e1, (rewrite2RDB env { tmpFile := file, fileSize := size }
            (startRewrite2RDB env listener hook s).1).2 = Outcome.ok () ∧
          env.closeErr = some e1 ∧
          (Rewrite2RDBForReplication env rdbFilename listener hook s).2 = Outcome.err e1 ∧
          tail = [Event.close file] ∧
          (∀ p, p ≠ file →
            (Rewrite2RDBForReplication env rdbFilename listener hook s).1.fs p = s.fs p) ∧
          ((Rewrite2RDBForReplication env rdbFilename listener hook s).1.fs file).isSome
            = true) ∨
        (∃ e1, (rewrite2RDB env { tmpFile := file, fileSize := size }
            (startRewrite2RDB env listener hook s).1).2 = Outcome.ok () ∧
          env.closeErr = none ∧ env.renameErr = some e1 ∧
          (Rewrite2RDBForReplication env rdbFilename listener hook s).2 = Outcome.err e1 ∧
          tail = [Event.close file, Event.rename file rdbFilename]) ∨
        ((rewrite2RDB env { tmpFile := file, fileSize := size }
            (startRewrite2RDB env listener hook s).1).2 = Outcome.ok () ∧
          env.closeErr = none ∧ env.renameErr = none ∧
          (Rewrite2RDBForReplication env rdbFilename listener hook s).2 = Outcome.ok () ∧
          tail = [Event.close file, Event.rename file rdbFilename]))) := by
  rcases startRewrite2RDB_eq env listener hook s with
    ⟨e1, g1, g⟩ | ⟨g1, g2, g⟩ | ⟨size, e1, g1, g2, g3, g⟩ | ⟨size, file, g1, g2, g3, g⟩
  · left
    refine ⟨e1, g1, ?_⟩
    simp [Rewrite2RDBForReplication, g, eventsSince]
  · right; left
    refine ⟨g1, g2, ?_⟩
    simp [Rewrite2RDBForReplication, g, eventsSince]
  · right; right; left
    refine ⟨size, e1, g1, g2, g3, ?_⟩
    simp [Rewrite2RDBForReplication, g, eventsSince]
  · right; right; right
    obtain ⟨f2, ftr, fenc, ffs, ftmp, fopen⟩ :=
      startRewrite2RDB_ok_facts env listener hook s size file g1 g2 g3
    obtain ⟨calls, hran, hshape⟩ := rewrite2RDB_ran env
      { tmpFile := file, fileSize := size } (startRewrite2RDB env listener hook s).1
    have henc := hran.encoded
    have hverd := hran.verdict
    have htr : (rewrite2RDB env { tmpFile := file, fileSize := size }
        (startRewrite2RDB env listener hook s).1).1.trace =
        s.trace ++ (startEvents size file listener hook ++
          [Event.newRewriteHandler, Event.loadAof (int size)] ++ calls.map Event.enc) := by
      rw [henc.trace_eq]
      simp [State.log, ftr]
    have hfs : ∀ p, p ≠ file → (rewrite2RDB env { tmpFile := file, fileSize := size }
        (startRewrite2RDB env listener hook s).1).1.fs p = s.fs p := by
      intro p hp
      rw [henc.fs_other p hp]
      exact ffs p hp
    have hsome : ((rewrite2RDB env { tmpFile := file, fileSize := size }
        (startRewrite2RDB env listener hook s).1).1.fs file).isSome = true :=
      henc.fs_tmp ftmp
    have hverd2 : Verdict env s.encCalls calls.length
        (rewrite2RDB env { tmpFile := file, fileSize := size }
          (startRewrite2RDB env listener hook s).1).2 := by
      have := hverd
      simp only [State.log] at this
      rwa [fenc] at this
    have hR : Rewrite2RDBForReplication env rdbFilename listener hook s =
        match rewrite2RDB env { tmpFile := file, fileSize := size }
            (startRewrite2RDB env listener hook s).1 with
        | (s, Outcome.err e) => (s, Outcome.err e)
        | (s, Outcome.fault) => (s, Outcome.fault)
        | (s, Outcome.ok _) =>
          match closeFile env file s with
          | (s, some e) => (s, Outcome.err e)
          | (s, none) =>
            match osRename env file rdbFilename s with
            | (s, some e) => (s, Outcome.err e)
            | (s, none) => (s, Outcome.ok ()) := by
      unfold Rewrite2RDBForReplication
      cases hst : startRewrite2RDB env listener hook s with
      | mk s1 out =>
        rw [hst] at f2
        simp only at f2
        subst f2
        rfl
    generalize hrw : rewrite2RDB env { tmpFile := file, fileSize := size }
      (startRewrite2RDB env listener hook s).1 = rw at *
    obtain ⟨s2, r2⟩ := rw
    simp only at htr hfs hsome hverd2 hshape hR
    cases r2 with
    | err e1 =>
      refine ⟨size, file, calls, [], g1, g2, g3, f2, ?_, (by rw [hrw]; exact hverd2), (by rw [hrw]; simp), ?_⟩
      · rw [hR]; simpa using eventsSince_of_trace_eq _ _ _ htr
      · left
        refine ⟨e1, by rw [hrw], by rw [hR], rfl, ?_, ?_⟩
        · intro p hp; rw [hR]; exact hfs p hp
        · rw [hR]; exact hsome
    | fault =>
      refine ⟨size, file, calls, [], g1, g2, g3, f2, ?_, (by rw [hrw]; exact hverd2), (by rw [hrw]; simp), ?_⟩
      · rw [hR]; simpa using eventsSince_of_trace_eq _ _ _ htr
      · right; left
        refine ⟨by rw [hrw], by rw [hR], rfl, ?_, ?_⟩
        · intro p hp; rw [hR]; exact hfs p hp
        · rw [hR]; exact hsome
    | ok u =>
      cases hcl : env.closeErr with
      | some e1 =>
        have hR2 : Rewrite2RDBForReplication env rdbFilename listener hook s =
            ((closeFile env file s2).1, Outcome.err e1) := by
          rw [hR]; simp [closeFile, hcl]
        refine ⟨size, file, calls, [Event.close file], g1, g2, g3, f2, ?_, (by rw [hrw]; exact hverd2),
          fun _ => (hshape rfl).1, ?_⟩
        · rw [hR2]
          apply eventsSince_of_trace_eq
          simp [closeFile, htr]
        · right; right; left
          refine ⟨e1, by rw [hrw], rfl, by rw [hR2], rfl, ?_, ?_⟩
          · intro p hp; rw [hR2]; exact hfs p hp
          · rw [hR2]; exact hsome
      | none =>
        cases hrn : env.renameErr with
        | some e1 =>
          have hR2 : Rewrite2RDBForReplication env rdbFilename listener hook s =
              ((osRename env file rdbFilename (closeFile env file s2).1).1, Outcome.err e1) := by
            rw [hR]; simp [closeFile, hcl, osRename, hrn]
          refine ⟨size, file, calls, [Event.close file, Event.rename file rdbFilename],
            g1, g2, g3, f2, ?_, (by rw [hrw]; exact hverd2), fun _ => (hshape rfl).1, ?_⟩
          · rw [hR2]
            apply eventsSince_of_trace_eq
            simp [osRename, hrn, State.log, closeFile, htr]
          · right; right; right; left
            exact ⟨e1, by rw [hrw], rfl, rfl, by rw [hR2], rfl⟩
        | none =>
          have hR2 : Rewrite2RDBForReplication env rdbFilename listener hook s =
              ((osRename env file rdbFilename (closeFile env file s2).1).1, Outcome.ok ()) := by
            rw [hR]; simp [closeFile, hcl, osRename, hrn]
          refine ⟨size, file, calls, [Event.close file, Event.rename file rdbFilename],
            g1, g2, g3, f2, ?_, (by rw [hrw]; exact hverd2), fun _ => (hshape rfl).1, ?_⟩
          · rw [hR2]
            apply eventsSince_of_trace_eq
            simp [osRename, hrn, closeFile, htr]
          · right; right; right; right
            exact ⟨by rw [hrw], rfl, rfl, by rw [hR2], rfl⟩

theorem encCallsOf_run (size : Int) (file : String) (listener hook : Option Nat)
    (n : Int) (calls : List (EncCall σ)) (tail : List (Event σ))
    (htail : encCallsOf tail = []) :
    encCallsOf (startEvents size file listener hook ++
      [Event.newRewriteHandler, Event.loadAof n] ++ calls.map Event.enc ++ tail) = calls := by
  rw [encCallsOf_append, encCallsOf_append, encCallsOf_append, encCallsOf_startEvents,
    encCallsOf_map_enc, htail]
  simp [encCallsOf]

theorem close_mem_run (size : Int) (file : String) (listener hook : Option Nat)
    (n : Int) (calls : List (EncCall σ)) (tail : List (Event σ)) (name : String)
    (h : Event.close name ∈ startEvents size file listener hook ++
      [Event.newRewriteHandler, Event.loadAof n] ++ calls.map Event.enc ++ tail) :
    Event.close name ∈ tail := by
  simp only [List.mem_append] at h
  rcases h with ((h | h) | h) | h
  · exact absurd h (close_not_mem_startEvents _ _ _ _ _)
  · simp at h
  · simp at h
  · exact h

theorem countP_isRename_run (size : Int) (file : String) (listener hook : Option Nat)
    (n : Int) (calls : List (EncCall σ)) (tail : List (Event σ)) :
    (startEvents size file listener hook ++
      [Event.newRewriteHandler, Event.loadAof n] ++ calls.map Event.enc ++ tail).countP
        Event.isRename = tail.countP Event.isRename := by
  rw [List.countP_append, List.countP_append, List.countP_append,
    countP_isRename_startEvents, countP_isRename_map_enc]
  simp [Event.isRename]

theorem pipeline_failure_frame [LinearOrder σ] (env : Env σ) (rdbFilename : String)
    (listener hook : Option Nat) (s : State σ) (e : Error)
    (htmp : env.tempFile ≠ Except.ok rdbFilename)
    (hfail : FailsBeforeRename env rdbFilename listener hook s e) :
    TargetPreserved s rdbFilename e
      (Rewrite2RDBForReplication env rdbFilename listener hook s) := by
  unfold FailsBeforeRename at hfail
  unfold TargetPreserved
  rcases pipeline_cases env rdbFilename listener hook s with
    ⟨e1, g1, hR, htr, hfs⟩ | ⟨g1, g2, hR, htr, hfs⟩ | ⟨size, e1, g1, g2, g3, hR, htr, hfs⟩ |
    ⟨size, file, calls, tail, g1, g2, g3, f2, htr, hverd, hshape, hcases⟩
  · rw [htr] at hfail ⊢
    rw [hR, hfs]
    simp [encCallsOf, g1] at hfail
    subst hfail
    simp [Event.isRename]
  · rw [htr] at hfail
    simp [encCallsOf, g1] at hfail
  · rw [htr] at hfail ⊢
    rw [hR, hfs]
    simp [encCallsOf, g1, g3] at hfail
    subst hfail
    simp [Event.isRename]
  · have hne : rdbFilename ≠ file := fun h => htmp (by rw [g3, h])
    have htail : encCallsOf tail = [] := by
      rcases hcases with ⟨_, _, _, ht, _⟩ | ⟨_, _, ht, _⟩ | ⟨_, _, _, _, ht, _⟩ |
        ⟨_, _, _, _, _, ht⟩ | ⟨_, _, _, _, ht⟩ <;> simp [ht, encCallsOf]
    rw [htr, encCallsOf_run _ _ _ _ _ _ _ htail] at hfail
    rw [htr, countP_isRename_run]
    have hfail2 : (∃ k, k < calls.length ∧ env.encErr (s.encCalls + k) = some e) ∨
        ((∃ name, Event.close name ∈ tail) ∧ env.closeErr = some e) := by
      rcases hfail with ⟨_, h⟩ | ⟨_, h⟩ | h | ⟨⟨name, hn⟩, h⟩
      · rw [g1] at h; simp at h
      · rw [g3] at h; simp at h
      · exact Or.inl h
      · exact Or.inr ⟨⟨name, close_mem_run _ _ _ _ _ _ _ _ hn⟩, h⟩
    rcases hcases with ⟨e1, hrw, hR, ht, hfs, _⟩ | ⟨hrw, hR, ht, hfs, _⟩ |
      ⟨e1, hrw, hcl, hR, ht, hfs, _⟩ | ⟨e1, hrw, hcl, hrn, hR, ht⟩ | ⟨hrw, hcl, hrn, hR, ht⟩
    · rcases hfail2 with ⟨k, hk, he⟩ | ⟨⟨name, hn⟩, _⟩
      · have := hverd.of_failing_call hk he
        rw [hrw] at this
        simp only [Outcome.err.injEq] at this
        subst this
        exact ⟨hR, by simp [ht], hfs _ hne⟩
      · rw [ht] at hn; simp at hn
    · rcases hfail2 with ⟨k, hk, he⟩ | ⟨⟨name, hn⟩, _⟩
      · have := hverd.of_failing_call hk he
        rw [hrw] at this
        simp at this
      · rw [ht] at hn; simp at hn
    · rcases hfail2 with ⟨k, hk, he⟩ | ⟨_, h⟩
      · have := hverd.of_failing_call hk he
        rw [hrw] at this
        simp at this
      · rw [hcl] at h
        simp only [Option.some.injEq] at h
        subst h
        exact ⟨hR, by simp [ht, Event.isRename], hfs _ hne⟩
    · rcases hfail2 with ⟨k, hk, he⟩ | ⟨_, h⟩
      · have := hverd.of_failing_call hk he
        rw [hrw] at this
        simp at this
      · rw [hcl] at h; simp at h
    · rcases hfail2 with ⟨k, hk, he⟩ | ⟨_, h⟩
      · have := hverd.of_failing_call hk he
        rw [hrw] at this
        simp at this
      · rw [hcl] at h; simp at h

/-- Either no rename happened and the target path holds what it held, or exactly one
rename happened. -/
theorem pipeline_rename_or_frame [LinearOrder σ] (env : Env σ) (rdbFilename : String)
    (listener hook : Option Nat) (s : State σ)
    (htmp : env.tempFile ≠ Except.ok rdbFilename) :
    ((eventsSince s (Rewrite2RDBForReplication env rdbFilename listener hook s).1).countP
        Event.isRename = 0 ∧
      (Rewrite2RDBForReplication env rdbFilename listener hook s).1.fs rdbFilename =
        s.fs rdbFilename) ∨
    (eventsSince s (Rewrite2RDBForReplication env rdbFilename listener hook s).1).countP
        Event.isRename = 1 := by
  rcases pipeline_cases env rdbFilename listener hook s with
    ⟨e1, g1, hR, htr, hfs⟩ | ⟨g1, g2, hR, htr, hfs⟩ | ⟨size, e1, g1, g2, g3, hR, htr, hfs⟩ |
    ⟨size, file, calls, tail, g1, g2, g3, f2, htr, hverd, hshape, hcases⟩
  · left; rw [htr, hfs]; simp [Event.isRename]
  · left; rw [htr, hfs]; simp [Event.isRename]
  · left; rw [htr, hfs]; simp [Event.isRename]
  · have hne : rdbFilename ≠ file := fun h => htmp (by rw [g3, h])
    rw [htr, countP_isRename_run]
    rcases hcases with ⟨e1, hrw, hR, ht, hfs, _⟩ | ⟨hrw, hR, ht, hfs, _⟩ |
      ⟨e1, hrw, hcl, hR, ht, hfs, _⟩ | ⟨e1, hrw, hcl, hrn, hR, ht⟩ | ⟨hrw, hcl, hrn, hR, ht⟩
    · left; exact ⟨by simp [ht], hfs _ hne⟩
    · left; exact ⟨by simp [ht], hfs _ hne⟩
    · left; exact ⟨by simp [ht, Event.isRename], hfs _ hne⟩
    · right; simp [ht, Event.isRename]
    · right; simp [ht, Event.isRename]

/-- C1. Over an explicit file-system state, with the temp file created at a path other
than the target: in every run of `Rewrite2RDBForReplication` (of which `Rewrite2RDB` is
the case without listener and hook) in which a step before the final rename is taken
and fails (the log sync, the temp-file creation, any encoder call of `rewrite2RDB`, the
temp-file close: the environment answers the call with an error), the operation returns
that error, performs no rename, and the target path holds exactly what it held before
the call; and in any run without a rename the target path is unchanged. -/
theorem rewrite_failure_preserves_target [LinearOrder σ] (env : Env σ) (rdbFilename : String)
    (listener hook : Option Nat) (s : State σ)
    (htmp : env.tempFile ≠ Except.ok rdbFilename) :
    Rewrite2RDB env rdbFilename s = Rewrite2RDBForReplication env rdbFilename none none s ∧
    (∀ e,
      ((Event.sync ∈
          eventsSince s (Rewrite2RDBForReplication env rdbFilename listener hook s).1 ∧
        env.syncErr = some e) ∨
       ((∃ name, Event.tempFile name ∈
          eventsSince s (Rewrite2RDBForReplication env rdbFilename listener hook s).1) ∧
        env.tempFile = Except.error e) ∨
       (∃ k, k < (encCallsOf (eventsSince s
            (Rewrite2RDBForReplication env rdbFilename listener hook s).1)).length ∧
          env.encErr (s.encCalls + k) = some e) ∨
       ((∃ name, Event.close name ∈
          eventsSince s (Rewrite2RDBForReplication env rdbFilename listener hook s).1) ∧
        env.closeErr = some e)) →
      (Rewrite2RDBForReplication env rdbFilename listener hook s).2 = Outcome.err e ∧
      (eventsSince s (Rewrite2RDBForReplication env rdbFilename listener hook s).1).countP
        Event.isRename = 0 ∧
      (Rewrite2RDBForReplication env rdbFilename listener hook s).1.fs rdbFilename =
        s.fs rdbFilename) ∧
    ((eventsSince s (Rewrite2RDBForReplication env rdbFilename listener hook s).1).countP
        Event.isRename = 0 →
      (Rewrite2RDBForReplication env rdbFilename listener hook s).1.fs rdbFilename =
        s.fs rdbFilename) := by
  refine ⟨rfl, fun e hfail => pipeline_failure_frame env rdbFilename listener hook s e htmp hfail,
    fun h0 => ?_⟩
  rcases pipeline_rename_or_frame env rdbFilename listener hook s htmp with ⟨_, h⟩ | h
  · exact h
  · rw [h] at h0; simp at h0

theorem tempFile_ne_dump : envWriteEndFails.tempFile ≠ Except.ok "dump.rdb" := by
  simp [envWriteEndFails, envAllOk]

/-- Witness of C1: the last encoder call of the run, `WriteEnd` (the sixth), fails; the
run returns that error and `dump.rdb` still holds the earlier snapshot. -/
theorem rewrite_failure_preserves_target_witness :
    envWriteEndFails.tempFile ≠ Except.ok "dump.rdb" ∧
    encCallsOf (eventsSince stateZero (Rewrite2RDB envWriteEndFails "dump.rdb" stateZero).1) =
      [EncCall.WriteHeader,
       EncCall.WriteAux "redis-ver" "6.0.0", EncCall.WriteAux "redis-bits" "64",
       EncCall.WriteAux "aof-preamble" "0", EncCall.WriteAux "ctime" "0",
       EncCall.WriteEnd] ∧
    envWriteEndFails.encErr (stateZero.encCalls + 5) = some "write: no space left on device" ∧
    (Rewrite2RDB envWriteEndFails "dump.rdb" stateZero).2 =
      Outcome.err "write: no space left on device" ∧
    (Rewrite2RDB envWriteEndFails "dump.rdb" stateZero).1.fs "dump.rdb" =
      some [82, 69, 68, 73, 83] :=
  have hcalls : encCallsOf
      (eventsSince stateZero (Rewrite2RDB envWriteEndFails "dump.rdb" stateZero).1) =
      [EncCall.WriteHeader,
       EncCall.WriteAux "redis-ver" "6.0.0", EncCall.WriteAux "redis-bits" "64",
       EncCall.WriteAux "aof-preamble" "0", EncCall.WriteAux "ctime" "0",
       EncCall.WriteEnd] := by decide
  have hk : 5 < (encCallsOf (eventsSince stateZero
      (Rewrite2RDBForReplication envWriteEndFails "dump.rdb" none none stateZero).1)).length := by
    decide
  have h := (rewrite_failure_preserves_target envWriteEndFails "dump.rdb" none none stateZero
    tempFile_ne_dump).2.1 "write: no space left on device"
    (Or.inr (Or.inr (Or.inl ⟨5, hk, rfl⟩)))
  ⟨tempFile_ne_dump, hcalls, rfl, h.1, h.2.2⟩

/-- C3, as stated, fails: the temp file is created, the first encoder write fails,
`Rewrite2RDB` returns that error, and the temp file is still there, still open. -/
theorem temp_file_discarded_counterexample :
    (startRewrite2RDB envEncodeFails none none stateZero).2 = Outcome.ok ctxZero ∧
    (rewrite2RDB envEncodeFails ctxZero
      (startRewrite2RDB envEncodeFails none none stateZero).1).2 =
      Outcome.err "write: no space left on device" ∧
    (Rewrite2RDB envEncodeFails "dump.rdb" stateZero).2 =
      Outcome.err "write: no space left on device" ∧
    ¬ ((Rewrite2RDB envEncodeFails "dump.rdb" stateZero).1.fs "/tmp/1.aof" = none) ∧
    "/tmp/1.aof" ∈ (Rewrite2RDB envEncodeFails "dump.rdb" stateZero).1.openFiles := by
  decide

/-- C3, amended. In every run of `Rewrite2RDBForReplication` (`Rewrite2RDB` being the
case without listener and hook) in which a step after the creation of the temp file and
before the rename is taken and fails (an encoder call of `rewrite2RDB`, or the temp-file
close: the environment answers the call with an error), the temp file was created, the
operation returns that error, and the temp file is not removed: it still exists under
its temporary name. -/
theorem temp_file_left_in_place [LinearOrder σ] (env : Env σ) (rdbFilename : String)
    (listener hook : Option Nat) (s : State σ) (e : Error)
    (hfail :
      (∃ k, k < (encCallsOf (eventsSince s
          (Rewrite2RDBForReplication env rdbFilename listener hook s).1)).length ∧
        env.encErr (s.encCalls + k) = some e) ∨
      ((∃ name, Event.close name ∈
          eventsSince s (Rewrite2RDBForReplication env rdbFilename listener hook s).1) ∧
        env.closeErr = some e)) :
    Rewrite2RDB env rdbFilename s = Rewrite2RDBForReplication env rdbFilename none none s ∧
    (Rewrite2RDBForReplication env rdbFilename listener hook s).2 = Outcome.err e ∧
    ∃ file, env.tempFile = Except.ok file ∧
      Event.tempFile (some file) ∈
        eventsSince s (Rewrite2RDBForReplication env rdbFilename listener hook s).1 ∧
      ((Rewrite2RDBForReplication env rdbFilename listener hook s).1.fs file).isSome = true := by
  refine ⟨rfl, ?_⟩
  rcases pipeline_cases env rdbFilename listener hook s with
    ⟨e1, g1, hR, htr, hfs⟩ | ⟨g1, g2, hR, htr, hfs⟩ | ⟨size, e1, g1, g2, g3, hR, htr, hfs⟩ |
    ⟨size, file, calls, tail, g1, g2, g3, f2, htr, hverd, hshape, hcases⟩
  · rw [htr] at hfail; simp [encCallsOf] at hfail
  · rw [htr] at hfail; simp [encCallsOf] at hfail
  · rw [htr] at hfail; simp [encCallsOf] at hfail
  · have htail : encCallsOf tail = [] := by
      rcases hcases with ⟨_, _, _, ht, _⟩ | ⟨_, _, ht, _⟩ | ⟨_, _, _, _, ht, _⟩ |
        ⟨_, _, _, _, _, ht⟩ | ⟨_, _, _, _, ht⟩ <;> simp [ht, encCallsOf]
    have hmem : Event.tempFile (some file) ∈
        eventsSince s (Rewrite2RDBForReplication env rdbFilename listener hook s).1 := by
      rw [htr]; simp [startEvents]
    rw [htr, encCallsOf_run _ _ _ _ _ _ _ htail] at hfail
    have hfail2 : (∃ k, k < calls.length ∧ env.encErr (s.encCalls + k) = some e) ∨
        ((∃ name, Event.close name ∈ tail) ∧ env.closeErr = some e) := by
      rcases hfail with h | ⟨⟨name, hn⟩, h⟩
      · exact Or.inl h
      · exact Or.inr ⟨⟨name, close_mem_run _ _ _ _ _ _ _ _ hn⟩, h⟩
    rcases hcases with ⟨e1, hrw, hR, ht, hfs, hsome⟩ | ⟨hrw, hR, ht, hfs, _⟩ |
      ⟨e1, hrw, hcl, hR, ht, hfs, hsome⟩ | ⟨e1, hrw, hcl, hrn, hR, ht⟩ |
      ⟨hrw, hcl, hrn, hR, ht⟩
    · rcases hfail2 with ⟨k, hk, he⟩ | ⟨⟨name, hn⟩, _⟩
      · have := hverd.of_failing_call hk he
        rw [hrw] at this
        simp only [Outcome.err.injEq] at this
        subst this
        exact ⟨hR, file, g3, hmem, hsome⟩
      · rw [ht] at hn; simp at hn
    · rcases hfail2 with ⟨k, hk, he⟩ | ⟨⟨name, hn⟩, _⟩
      · have := hverd.of_failing_call hk he
        rw [hrw] at this
        simp at this
      · rw [ht] at hn; simp at hn
    · rcases hfail2 with ⟨k, hk, he⟩ | ⟨_, h⟩
      · have := hverd.of_failing_call hk he
        rw [hrw] at this
        simp at this
      · rw [hcl] at h
        simp only [Option.some.injEq] at h
        subst h
        exact ⟨hR, file, g3, hmem, hsome⟩
    · rcases hfail2 with ⟨k, hk, he⟩ | ⟨_, h⟩
      · have := hverd.of_failing_call hk he
        rw [hrw] at this
        simp at this
      · rw [hcl] at h; simp at h
    · rcases hfail2 with ⟨k, hk, he⟩ | ⟨_, h⟩
      · have := hverd.of_failing_call hk he
        rw [hrw] at this
        simp at this
      · rw [hcl] at h; simp at h

/-- Witness of the amended C3: the close fails and the temp file is still there. -/
theorem temp_file_left_in_place_witness :
    Event.close "/tmp/1.aof" ∈ eventsSince stateZero
      (Rewrite2RDBForReplication envCloseFails "dump.rdb" none none stateZero).1 ∧
    envCloseFails.closeErr = some "close: input/output error" ∧
    (Rewrite2RDBForReplication envCloseFails "dump.rdb" none none stateZero).2 =
      Outcome.err "close: input/output error" ∧
    ∃ file, envCloseFails.tempFile = Except.ok file ∧
      Event.tempFile (some file) ∈ eventsSince stateZero
        (Rewrite2RDBForReplication envCloseFails "dump.rdb" none none stateZero).1 ∧
      ((Rewrite2RDBForReplication envCloseFails "dump.rdb" none none stateZero).1.fs
        file).isSome = true :=
  have hclose : Event.close "/tmp/1.aof" ∈ eventsSince stateZero
      (Rewrite2RDBForReplication envCloseFails "dump.rdb" none none stateZero).1 := by decide
  ⟨hclose, rfl,
    (temp_file_left_in_place envCloseFails "dump.rdb" none none stateZero
      "close: input/output error" (Or.inr ⟨⟨"/tmp/1.aof", hclose⟩, rfl⟩)).2⟩

/-- `startRewrite2RDB` aborts with a fault exactly when the sync succeeds and `os.Stat`
fails. -/
theorem startRewrite2RDB_fault_iff (env : Env σ) (listener hook : Option Nat) (s : State σ) :
    (startRewrite2RDB env listener hook s).2 = Outcome.fault ↔
      (env.syncErr = none ∧ env.statSize = none) := by
  rcases startRewrite2RDB_eq env listener hook s with
    ⟨e2, g1, g⟩ | ⟨g1, g2, g⟩ | ⟨_, e2, g1, g2, _, g⟩ | ⟨_, _, g1, g2, _, g⟩
  · rw [g]; simp [g1]
  · rw [g]; simp [g1, g2]
  · rw [g]; simp [g1, g2]
  · rw [g]; simp [g1, g2]

/-- C2 fails on the code where `os.Stat` fails: the error of `os.Stat` is dropped, `Size()`
is called on the nil `FileInfo`, and neither `startRewrite2RDB` nor `Rewrite2RDB` returns
an error: the run aborts (the deferred unlock being the last event). -/
theorem stat_failure_aborts :
    envStatFails.syncErr = none ∧ envStatFails.statSize = none ∧
    (startRewrite2RDB envStatFails none none stateZero).2 = Outcome.fault ∧
    (Rewrite2RDB envStatFails "dump.rdb" stateZero).2 = Outcome.fault ∧
    (Rewrite2RDB envStatFails "dump.rdb" stateZero).1.trace =
      [Event.lock, Event.sync, Event.stat none, Event.unlock] := by
  decide

/-- C6. In every successful run of `Rewrite2RDBForReplication` (of which `Rewrite2RDB` is
the instance without listener and hook) the events are: lock, sync, then the stat that
reads the log size, the temp-file creation, the optional registration and hook, unlock;
then a handler is obtained from `newRewriteHandler` and `LoadAof` is called on it with
the size read by the stat, which is the `fileSize` of the context `startRewrite2RDB`
returned; only then come the encoder calls (they dump the database loaded with that
bound), and last the close and the rename. -/
theorem pipeline_boundary_order [LinearOrder σ] (env : Env σ) (rdbFilename : String)
    (listener hook : Option Nat) (s : State σ)
    (hok : (Rewrite2RDBForReplication env rdbFilename listener hook s).2 = Outcome.ok ()) :
    Rewrite2RDB env rdbFilename s = Rewrite2RDBForReplication env rdbFilename none none s ∧
    ∃ (size : Int) (tmp : String) (calls : List (EncCall σ)) (aux : List (String × String)),
      env.statSize = some size ∧
      (startRewrite2RDB env listener hook s).2 =
        Outcome.ok { tmpFile := tmp, fileSize := size } ∧
      eventsSince s (Rewrite2RDBForReplication env rdbFilename listener hook s).1 =
        [Event.lock, Event.sync, Event.stat (some size), Event.tempFile (some tmp)] ++
        (match listener with
          | some l => [Event.register l]
          | none => []) ++
        (match hook with
          | some h => [Event.hook h]
          | none => []) ++
        [Event.unlock, Event.newRewriteHandler, Event.loadAof size] ++
        calls.map Event.enc ++ [Event.close tmp, Event.rename tmp rdbFilename] ∧
      aux.Perm (auxMap env.now) ∧
      calls = [EncCall.WriteHeader] ++ aux.map (fun kv => EncCall.WriteAux kv.1 kv.2) ++
        (List.range env.Databases.toNat).flatMap (dbSection (env.load size)) ++
        [EncCall.WriteEnd] := by
  refine ⟨rfl, ?_⟩
  rcases pipeline_cases env rdbFilename listener hook s with
    ⟨e1, g1, hR, htr, hfs⟩ | ⟨g1, g2, hR, htr, hfs⟩ | ⟨size, e1, g1, g2, g3, hR, htr, hfs⟩ |
    ⟨size, file, calls, tail, g1, g2, g3, f2, htr, hverd, hshape, hcases⟩
  · rw [hR] at hok; simp at hok
  · rw [hR] at hok; simp at hok
  · rw [hR] at hok; simp at hok
  · rcases hcases with ⟨e1, hrw, hR, ht, hfs, hsome⟩ | ⟨hrw, hR, ht, hfs, _⟩ |
      ⟨e1, hrw, hcl, hR, ht, hfs, hsome⟩ | ⟨e1, hrw, hcl, hrn, hR, ht⟩ |
      ⟨hrw, hcl, hrn, hR, ht⟩
    · rw [hR] at hok; simp at hok
    · rw [hR] at hok; simp at hok
    · rw [hR] at hok; simp at hok
    · rw [hR] at hok; simp at hok
    · obtain ⟨aux, hperm, hcalls⟩ := hshape hrw
      refine ⟨size, file, calls, aux, g2, f2, ?_, hperm, hcalls⟩
      rw [htr, ht]
      simp [startEvents, int]

/-- Witness of C6: the run in which every call succeeds. -/
theorem pipeline_boundary_order_witness :
    (Rewrite2RDBForReplication envAllOk "dump.rdb" (some 7) (some 3) stateZero).2 =
      Outcome.ok () ∧
    ∃ (size : Int) (tmp : String) (calls : List (EncCall Int)),
      envAllOk.statSize = some size ∧
      eventsSince stateZero
          (Rewrite2RDBForReplication envAllOk "dump.rdb" (some 7) (some 3) stateZero).1 =
        [Event.lock, Event.sync, Event.stat (some size), Event.tempFile (some tmp),
          Event.register 7, Event.hook 3,
          Event.unlock, Event.newRewriteHandler, Event.loadAof size] ++
        calls.map Event.enc ++ [Event.close tmp, Event.rename tmp "dump.rdb"] :=
  have hok : (Rewrite2RDBForReplication envAllOk "dump.rdb" (some 7) (some 3) stateZero).2 =
      Outcome.ok () := by decide
  match (pipeline_boundary_order envAllOk "dump.rdb" (some 7) (some 3) stateZero hok).2 with
  | ⟨size, tmp, calls, _, h1, _, h3, _, _⟩ => ⟨hok, size, tmp, calls, h1, by simpa using h3⟩

theorem eventsSince_rewrite2RDB [LinearOrder σ] (env : Env σ) (ctx : RewriteCtx) (s : State σ)
    (calls : List (EncCall σ))
    (h : Encoded ctx.tmpFile
      ((s.log Event.newRewriteHandler).log (Event.loadAof (int ctx.fileSize)))
      (rewrite2RDB env ctx s).1 calls) :
    encCallsOf (eventsSince s (rewrite2RDB env ctx s).1) = calls := by
  have htr : (rewrite2RDB env ctx s).1.trace = s.trace ++
      ([Event.newRewriteHandler, Event.loadAof (int ctx.fileSize)] ++
        calls.map Event.enc) := by
    rw [h.trace_eq]; simp [State.log]
  rw [eventsSince_of_trace_eq _ _ _ htr, encCallsOf_append, encCallsOf_map_enc]
  simp [encCallsOf]

theorem flatMap_congr_mem {α β : Type} (l : List α) (f g : α → List β)
    (h : ∀ x ∈ l, f x = g x) : l.flatMap f = l.flatMap g := by
  induction l with
  | nil => rfl
  | cons x xs ih =>
    simp only [List.flatMap_cons]
    rw [h x (List.mem_cons_self _ _), ih (fun y hy => h y (List.mem_cons_of_mem _ hy))]

theorem expectedWrite_isObject [LinearOrder σ] (item : String × DataEntity σ × Option Time)
    (c : EncCall σ) (h : expectedWrite item = some c) : c.isObject = true := by
  obtain ⟨key, ⟨data⟩, exp⟩ := item
  cases data <;> simp [expectedWrite] at h <;> subst h <;> rfl

/-- C7. For every run of `rewrite2RDB` that returns nil, the encoder calls of the run are,
in order: `WriteHeader`; the four `WriteAux` calls `redis-ver`, `redis-bits`,
`aof-preamble` (value `0`) and `ctime` (the decimal seconds of the clock), in some order;
for each database index from 0 to `Databases - 1`, ascending, nothing when its key count
is zero and otherwise `WriteDBHeader(i, keyCount, ttlCount)` (as unsigned 64-bit values)
followed by the object writes of that database, one per visited entry of one of the five
kinds, in the order visited, each with the key and the flattened value of its entry;
`WriteEnd`.  Between the first and the last call there are only `WriteAux`,
`WriteDBHeader` and object-write calls. -/
theorem rewrite2RDB_call_sequence [LinearOrder σ] (env : Env σ) (ctx : RewriteCtx)
    (s : State σ) (hnil : (rewrite2RDB env ctx s).2 = Outcome.ok ()) :
    ∃ aux : List (String × String),
      aux.Perm [("redis-ver", "6.0.0"), ("redis-bits", "64"), ("aof-preamble", "0"),
        ("ctime", toString env.now)] ∧
      encCallsOf (eventsSince s (rewrite2RDB env ctx s).1) =
        [EncCall.WriteHeader] ++ aux.map (fun kv => EncCall.WriteAux kv.1 kv.2) ++
          (List.range env.Databases.toNat).flatMap
            (fun i =>
              if ((env.load ctx.fileSize).GetDBSize i).1 = 0 then []
              else EncCall.WriteDBHeader (i % 2 ^ 64)
                  ((((env.load ctx.fileSize).GetDBSize i).1 % 2 ^ 64).toNat)
                  ((((env.load ctx.fileSize).GetDBSize i).2 % 2 ^ 64).toNat)
                :: ((env.load ctx.fileSize).entries i).filterMap expectedWrite) ++
          [EncCall.WriteEnd] ∧
      (∀ c ∈ aux.map (fun kv => EncCall.WriteAux kv.1 kv.2) ++
          (List.range env.Databases.toNat).flatMap (expectedSection (env.load ctx.fileSize)),
        c ≠ EncCall.WriteHeader ∧ c ≠ EncCall.WriteEnd) := by
  obtain ⟨calls, hran, hn⟩ := rewrite2RDB_ran env ctx s
  obtain ⟨⟨aux, hperm, hcalls⟩, hall⟩ := hn hnil
  have hsec : (List.range env.Databases.toNat).flatMap (dbSection (env.load (int ctx.fileSize)))
      = (List.range env.Databases.toNat).flatMap (expectedSection (env.load ctx.fileSize)) := by
    apply flatMap_congr_mem
    intro i hi
    exact dbSection_eq_expected _ i (hall i hi)
  refine ⟨aux, hperm, ?_, ?_⟩
  · rw [eventsSince_rewrite2RDB env ctx s calls hran.encoded, hcalls, hsec]
    rfl
  · intro c hc
    rw [List.mem_append] at hc
    rcases hc with hc | hc
    · obtain ⟨kv, _, rfl⟩ := List.mem_map.mp hc
      exact ⟨by simp, by simp⟩
    · obtain ⟨i, _, hi⟩ := List.mem_flatMap.mp hc
      unfold expectedSection at hi
      split at hi
      · simp at hi
      · rcases List.mem_cons.mp hi with rfl | hi
        · exact ⟨by simp, by simp⟩
        · obtain ⟨item, _, hitem⟩ := List.mem_filterMap.mp hi
          have := expectedWrite_isObject item c hitem
          constructor <;> (intro hcc; subst hcc; simp [EncCall.isObject] at this)

/-- Witness of C7: over three databases of which only database 1 holds keys (a string, a
list with an expiration, a sorted set), the aux fields being visited in another order
than written. -/
theorem rewrite2RDB_call_sequence_witness :
    (rewrite2RDB envMixed ctxZero stateZero).2 = Outcome.ok () ∧
    encCallsOf (eventsSince stateZero (rewrite2RDB envMixed ctxZero stateZero).1) =
      ([EncCall.WriteHeader,
        EncCall.WriteAux "aof-preamble" "0", EncCall.WriteAux "redis-bits" "64",
        EncCall.WriteAux "ctime" "0", EncCall.WriteAux "redis-ver" "6.0.0",
        EncCall.WriteDBHeader 1 3 1,
        EncCall.WriteStringObject "a" [49] [],
        EncCall.WriteListObject "b" [[120], [121]] [Opt.TTL 1500],
        EncCall.WriteZSetObject "z"
          [{ Member := "b", Score := 2 }, { Member := "a", Score := 1 }] [],
        EncCall.WriteEnd] : List (EncCall Int)) ∧
    ∃ aux : List (String × String),
      aux.Perm [("redis-ver", "6.0.0"), ("redis-bits", "64"), ("aof-preamble", "0"),
        ("ctime", toString envMixed.now)] ∧
      encCallsOf (eventsSince stateZero (rewrite2RDB envMixed ctxZero stateZero).1) =
        [EncCall.WriteHeader] ++ aux.map (fun kv => EncCall.WriteAux kv.1 kv.2) ++
          (List.range envMixed.Databases.toNat).flatMap
            (fun i =>
              if ((envMixed.load ctxZero.fileSize).GetDBSize i).1 = 0 then []
              else EncCall.WriteDBHeader (i % 2 ^ 64)
                  ((((envMixed.load ctxZero.fileSize).GetDBSize i).1 % 2 ^ 64).toNat)
                  ((((envMixed.load ctxZero.fileSize).GetDBSize i).2 % 2 ^ 64).toNat)
                :: ((envMixed.load ctxZero.fileSize).entries i).filterMap expectedWrite) ++
          [EncCall.WriteEnd] :=
  have hnil : (rewrite2RDB envMixed ctxZero stateZero).2 = Outcome.ok () := by decide
  match rewrite2RDB_call_sequence envMixed ctxZero stateZero hnil with
  | ⟨aux, hp, hc, _⟩ => ⟨hnil, by decide, aux, hp, hc⟩

theorem wrapInt64_lt (x : Int) : wrapInt64 x < 2 ^ 63 := by
  unfold wrapInt64; omega

theorem wrapInt64_of_range (x : Int) (h0 : -(2 ^ 63) ≤ x) (h1 : x < 2 ^ 63) :
    wrapInt64 x = x := by
  unfold wrapInt64; omega

theorem uint64_millis (x : Int) (h0 : 0 ≤ x) (h1 : x < 2 ^ 63) :
    uint64 (x.tdiv 1000000) = (x / 1000000).toNat := by
  rw [Int.tdiv_eq_ediv h0 (by norm_num)]
  unfold uint64
  omega

theorem objectCall_opts [LinearOrder σ] (key : String) (entity : DataEntity σ)
    (opts : List Opt) (c : EncCall σ) (h : objectCall key entity opts = Adapted.write c) :
    c.isObject = true ∧ c.opts = opts := by
  obtain ⟨data⟩ := entity
  cases data with
  | zset obj =>
    simp only [objectCall] at h
    cases hz : zsetEntries obj with
    | none => rw [hz] at h; simp at h
    | some entries =>
      rw [hz] at h
      simp only [Adapted.write.injEq] at h
      subst h
      exact ⟨rfl, rfl⟩
  | bytes b => simp [objectCall] at h; subst h; exact ⟨rfl, rfl⟩
  | list items => simp [objectCall] at h; subst h; exact ⟨rfl, rfl⟩
  | set members => simp [objectCall] at h; subst h; exact ⟨rfl, rfl⟩
  | dict fields => simp [objectCall] at h; subst h; exact ⟨rfl, rfl⟩
  | other t => simp [objectCall] at h

/-- C9, as stated, fails: a key expiring on the first instant of the year 2300, after the
epoch, is written with a TTL option whose value is not its expiration in milliseconds
since the epoch (10413792000000): the nanosecond count does not fit `UnixNano()`. -/
theorem ttl_after_epoch_counterexample :
    (0 : Int) ≤ year2300.nanos ∧
    Event.enc (EncCall.WriteStringObject "k" [118] [Opt.TTL 18446736040757477907]) ∈
      eventsSince stateZero
        (dumpCallback envAllOk "/tmp/1.aof"
          { state := stateZero, err := none, err2 := none, fault := false }
          ("k", { Data := Data.bytes [118] }, some year2300)).1.state ∧
    (year2300.nanos / 1000000).toNat = 10413792000000 ∧
    ¬ ((EncCall.WriteStringObject "k" [118] [Opt.TTL 18446736040757477907] : EncCall Int).opts =
      [Opt.TTL (year2300.nanos / 1000000).toNat]) := by
  decide

/-- C9, amended. For every key the dump visits, an encoder call the callback makes for it
is an object write whose options hold a TTL option if and only if the key has an
expiration; then the options are exactly one TTL option, and for an expiration at or
after the epoch and less than 2^63 nanoseconds after it (the range of `UnixNano()`) its
value is the expiration in milliseconds since the epoch: its nanosecond count divided by
10^6 (integer division). -/
theorem dumpCallback_ttl_option [LinearOrder σ] (env : Env σ) (tmp : String)
    (v : DumpVars σ) (key : String) (entity : DataEntity σ) (expiration : Option Time)
    (call : EncCall σ)
    (hcall : Event.enc call ∈
      eventsSince v.state (dumpCallback env tmp v (key, entity, expiration)).1.state) :
    call.isObject = true ∧
    ((∃ ms, Opt.TTL ms ∈ call.opts) ↔ expiration ≠ none) ∧
    (expiration ≠ none → ∃ ms, call.opts = [Opt.TTL ms]) ∧
    (∀ t : Time, expiration = some t → 0 ≤ t.nanos → t.nanos < 2 ^ 63 →
      call.opts = [Opt.TTL (t.nanos / 1000000).toNat]) := by
  have hopts : call.isObject = true ∧ call.opts = ttlOpts expiration := by
    have hnil : eventsSince v.state v.state = [] := by simp [eventsSince]
    simp only [dumpCallback] at hcall
    cases hc : objectCall key entity (ttlOpts expiration) with
    | fault =>
      rw [hc] at hcall
      simp [hnil] at hcall
    | noCase =>
      rw [hc] at hcall
      simp only at hcall
      split at hcall <;> simp [hnil] at hcall
    | write c =>
      rw [hc] at hcall
      have htr : eventsSince v.state (encode env tmp c v.state).1 = [Event.enc c] :=
        eventsSince_of_trace_eq _ _ _ (by simp [encode])
      have hcc : call = c := by
        simp only at hcall
        split at hcall <;> simpa [htr] using hcall
      rw [hcc]
      exact objectCall_opts key entity _ c hc
  obtain ⟨hobj, ho⟩ := hopts
  rw [ho]
  refine ⟨hobj, ?_, ?_, ?_⟩
  · cases expiration <;> simp [ttlOpts, WithTTL]
  · cases expiration <;> simp [ttlOpts, WithTTL]
  · intro t ht h0 h1
    subst ht
    simp only [ttlOpts, WithTTL, Time.UnixNano]
    rw [wrapInt64_of_range _ (by omega) h1, uint64_millis _ h0 h1]

/-- Witness of the amended C9: a string key expiring 1.5 seconds after the epoch is
written with the single option TTL 1500. -/
theorem dumpCallback_ttl_option_witness :
    Event.enc (EncCall.WriteStringObject "k" [118] [Opt.TTL 1500]) ∈
      eventsSince stateZero
        (dumpCallback envAllOk "/tmp/1.aof"
          { state := stateZero, err := none, err2 := none, fault := false }
          ("k", { Data := Data.bytes [118] }, some { nanos := 1500000000 })).1.state ∧
    (0 : Int) ≤ (Time.mk 1500000000).nanos ∧ (Time.mk 1500000000).nanos < 2 ^ 63 ∧
    (EncCall.WriteStringObject "k" [118] [Opt.TTL 1500] : EncCall Int).opts =
      [Opt.TTL ((Time.mk 1500000000).nanos / 1000000).toNat] :=
  have hin : Event.enc (EncCall.WriteStringObject "k" [118] [Opt.TTL 1500]) ∈
      eventsSince stateZero
        (dumpCallback envAllOk "/tmp/1.aof"
          { state := stateZero, err := none, err2 := none, fault := false }
          ("k", { Data := Data.bytes [118] }, some { nanos := 1500000000 })).1.state := by
    decide
  have h0 : (0 : Int) ≤ (Time.mk 1500000000).nanos := by decide
  have h1 : (Time.mk 1500000000).nanos < 2 ^ 63 := by decide
  ⟨hin, h0, h1,
    (dumpCallback_ttl_option envAllOk "/tmp/1.aof"
      { state := stateZero, err := none, err2 := none, fault := false } "k"
      { Data := Data.bytes [118] }
      (some { nanos := 1500000000 }) _ hin).2.2.2 _ rfl h0 h1⟩

/-- C8, as stated, fails: the sorted set holding `a` with score 1 and `b` with score 2 is
written as `b`, `a`, which is not in ascending order of score; and for a sorted set
without elements no `WriteZSetObject` call is made, the adapter aborts (`ForEach` is
called with `start = 0` and `size = 0`). -/
theorem zset_entries_ascending_counterexample :
    objectCall "z" ({ Data := Data.zset zsetAB } : DataEntity Int) [] =
      (Adapted.write (EncCall.WriteZSetObject "z"
        [{ Member := "b", Score := 2 }, { Member := "a", Score := 1 }] []) : Adapted Int) ∧
    ¬ List.Pairwise ZSetEntry.le
      ([{ Member := "b", Score := 2 }, { Member := "a", Score := 1 }] : List (ZSetEntry Int)) ∧
    objectCall "z" ({ Data := Data.zset zsetEmpty } : DataEntity Int) [] = Adapted.fault := by
  decide

/-- C8, amended. For every sorted-set entity holding at least one element, the dump calls
`WriteZSetObject` with an entries slice that contains exactly one (Member, Score) entry
per element of the sorted set, in descending order of score with ties broken by
descending member (`ForEach` is called with `desc = true`); consequently two sorted sets
holding the same elements are written with the same entries. -/
theorem zset_entries_descending [LinearOrder σ] (key : String) (obj obj2 : SortedSet σ)
    (opts : List Opt) (hne : obj.elements ≠ []) (hsame : obj2.elements.Perm obj.elements) :
    ∃ entries : List (ZSetEntry σ),
      objectCall key { Data := Data.zset obj } opts =
        Adapted.write (EncCall.WriteZSetObject key entries opts) ∧
      entries.Perm (obj.elements.map Element.toEntry) ∧
      entries.Pairwise (fun a b => ZSetEntry.le b a) ∧
      objectCall key { Data := Data.zset obj2 } opts =
        Adapted.write (EncCall.WriteZSetObject key entries opts) := by
  have hne2 : obj2.elements ≠ [] := fun h => hne (by
    have := hsame.length_eq
    rw [h] at this
    exact List.length_eq_zero.mp this.symm)
  have hrank : obj2.ranked = obj.ranked := by
    apply List.eq_of_perm_of_sorted (r := Element.le)
    · exact ((List.perm_insertionSort _ _).trans hsame).trans (List.perm_insertionSort _ _).symm
    · exact List.sorted_insertionSort Element.le obj2.elements
    · exact List.sorted_insertionSort Element.le obj.elements
  refine ⟨obj.ranked.reverse.map Element.toEntry, ?_, ?_, ?_, ?_⟩
  · simp [objectCall, (zsetEntries_eq obj).2 hne]
  · exact ((List.reverse_perm _).trans (List.perm_insertionSort _ _)).map _
  · rw [List.pairwise_map, List.pairwise_reverse]
    exact List.sorted_insertionSort Element.le obj.elements
  · simp [objectCall, (zsetEntries_eq obj2).2 hne2, hrank]

/-- Witness of the amended C8: both presentations of the set `a:1, b:2` are written as
`b:2, a:1`. -/
theorem zset_entries_descending_witness :
    zsetBA.elements ≠ [] ∧ zsetAB.elements.Perm zsetBA.elements ∧
    objectCall "z" ({ Data := Data.zset zsetBA } : DataEntity Int) [] =
      objectCall "z" ({ Data := Data.zset zsetAB } : DataEntity Int) [] ∧
    ∃ entries : List (ZSetEntry Int),
      objectCall "z" ({ Data := Data.zset zsetBA } : DataEntity Int) [] =
        Adapted.write (EncCall.WriteZSetObject "z" entries []) ∧
      entries.Pairwise (fun a b => ZSetEntry.le b a) :=
  have hne : zsetBA.elements ≠ [] := by decide
  match zset_entries_descending "z" zsetBA zsetAB [] hne (List.Perm.swap _ _ _) with
  | ⟨entries, h1, _, h3, h4⟩ => ⟨hne, List.Perm.swap _ _ _, h1.trans h4.symm, entries, h1, h3⟩

/-- When every entry of database `i` holds a value of one of the five kinds and the type
switch faults on none, its object writes are as many as its entries, and those carrying
an option as many as the entries with an expiration. -/
theorem objectWrites_counts [LinearOrder σ] (db : DB σ) (i : Nat)
    (h : ∀ item ∈ db.entries i,
      item.2.1.Data.isHandled = true ∧ adaptEntry item ≠ Adapted.fault) :
    (objectWrites db i).length = (db.entries i).length ∧
    (objectWrites db i).countP (fun c => !c.opts.isEmpty) =
      (db.entries i).countP (fun item => item.2.2.isSome) := by
  unfold objectWrites
  generalize db.entries i = l at h
  induction l with
  | nil => simp
  | cons item rest ih =>
    obtain ⟨ih1, ih2⟩ := ih (fun x hx => h x (List.mem_cons_of_mem _ hx))
    obtain ⟨hi, hnf⟩ := h item (List.mem_cons_self _ _)
    have hc : ∃ c, entryCall item = some c ∧ c.opts = ttlOpts item.2.2 := by
      unfold entryCall
      cases ha : adaptEntry item with
      | fault => exact absurd ha hnf
      | noCase =>
        obtain ⟨key, ⟨data⟩, exp⟩ := item
        cases data <;> simp [Data.isHandled] at hi <;>
          simp [adaptEntry, objectCall] at ha
        split at ha <;> simp at ha
      | write c => exact ⟨c, rfl, (objectCall_opts _ _ _ c ha).2⟩
    obtain ⟨c, hc1, hc2⟩ := hc
    rw [List.filterMap_cons_some hc1]
    refine ⟨by simp [ih1], ?_⟩
    rw [List.countP_cons, List.countP_cons, ih2, hc2]
    cases item.2.2 <;> simp [ttlOpts]

/-- C4 fails on the code for a value of another runtime kind: `GetDBSize(0)` reports the
two keys `ForEach(0, ...)` visits, none with an expiration, `rewrite2RDB` returns nil, the
header of database 0 declares 2 keys, and a single object write follows it: the type
switch has no case for the second key and nothing is written for it. -/
theorem header_count_exceeds_object_writes :
    ((dbOtherKind.entries 0).length : Int) = (dbOtherKind.GetDBSize 0).1 ∧
    (((dbOtherKind.entries 0).filter (fun item => item.2.2.isSome)).length : Int) =
      (dbOtherKind.GetDBSize 0).2 ∧
    (rewrite2RDB envOtherKind ctxZero stateZero).2 = Outcome.ok () ∧
    encCallsOf (eventsSince stateZero (rewrite2RDB envOtherKind ctxZero stateZero).1) =
      [EncCall.WriteHeader,
       EncCall.WriteAux "redis-ver" "6.0.0", EncCall.WriteAux "redis-bits" "64",
       EncCall.WriteAux "aof-preamble" "0", EncCall.WriteAux "ctime" "0",
       EncCall.WriteDBHeader 0 2 0,
       EncCall.WriteStringObject "a" [49] [],
       EncCall.WriteEnd] ∧
    (encCallsOf (eventsSince stateZero
      (rewrite2RDB envOtherKind ctxZero stateZero).1)).countP EncCall.isObject = 1 := by
  decide

/-- Witness of C10: the log sync fails; no listener is added and the lock is free. -/
theorem startRewrite2RDB_error_atomic_witness :
    (startRewrite2RDB envSyncFails (some 7) (some 3) stateZero).2 =
      Outcome.err "sync: input/output error" ∧
    (startRewrite2RDB envSyncFails (some 7) (some 3) stateZero).1.listeners =
      stateZero.listeners ∧
    (startRewrite2RDB envSyncFails (some 7) (some 3) stateZero).1.pausingAof = false :=
  have h := startRewrite2RDB_error_atomic envSyncFails (some 7) (some 3) stateZero
    "sync: input/output error" rfl
  ⟨rfl, h.2.1, h.2.2.2.2.1⟩

/-- Witness of C5: the run in which every call succeeds, with listener 7 and hook 3. -/
theorem startRewrite2RDB_pause_window_witness :
    (startRewrite2RDB envAllOk (some 7) (some 3) stateZero).2 = Outcome.ok ctxZero ∧
    eventsSince stateZero (startRewrite2RDB envAllOk (some 7) (some 3) stateZero).1 =
      [Event.lock, Event.sync, Event.stat (some 10), Event.tempFile (some "/tmp/1.aof"),
       Event.register 7, Event.hook 3, Event.unlock] :=
  ⟨rfl, (startRewrite2RDB_pause_window envAllOk 7 3 stateZero ctxZero rfl).2.1⟩

end Aof
